import Mathlib

/-!
Verification development for the ragability evaluation harness.

The definitions below are a shallow embedding of the Python sources:
  - `checks2.py`: the CHECKS registry and the individual check functions,
  - `ragability_check.py`: `check_check` and the head of `run`,
  - `data.py`: `read_input_file` record validation,
  - `ragability_eval.py`: the row-collection and metric-aggregation pipeline.
Python dictionaries become structures or association lists, regexes become
explicit matchers, exceptions become `Except` values or explicit crash flags.
-/

namespace Ragability

/-! ## Generic list helpers (substring search used by several checks) -/

/-- `listStartsWith a w` is true when `w` is an initial segment of `a`
(the embedding of Python slice comparison used for substring search). -/
def listStartsWith : List Char → List Char → Bool
  | _, [] => true
  | [], _ :: _ => false
  | c :: cs, w :: ws => c == w && listStartsWith cs ws

/-- `occursIn t a` embeds the Python substring test `t in a`. -/
def occursIn (t : List Char) : List Char → Bool
  | [] => t.isEmpty
  | c :: rest => listStartsWith (c :: rest) t || occursIn t rest

/-! ## The CHECKS registry (`checks2.py`)

`register_check` stores, for each name, the kind, the number of extra
positional arguments and the evaluation target (default `""`). -/

structure FuncDef where
  kind : String
  nargs : Nat
  target : String
deriving DecidableEq, Repr

/-- The CHECKS dictionary built by the `register_check` decorations in
`checks2.py`, in registration order. -/
def CHECKS : List (String × FuncDef) :=
  [("is_eq", ⟨"binary", 1, "1"⟩),
   ("is_textual_eq", ⟨"binary", 1, "1"⟩),
   ("contains", ⟨"binary", 1, "1"⟩),
   ("affirmative", ⟨"binary", 0, "1"⟩),
   ("negative", ⟨"binary", 0, "1"⟩),
   ("unknown", ⟨"binary", 0, "1"⟩),
   ("is_eq_oneof", ⟨"binary", 1, ""⟩),
   ("is_textual_eq_oneof", ⟨"binary", 1, ""⟩),
   ("contains_oneof", ⟨"binary", 1, ""⟩),
   ("contains_all", ⟨"binary", 1, ""⟩),
   ("extract_score", ⟨"score", 0, ""⟩)]

/-- `CHECKS.get(name)` of the Python dict. -/
def lookupCheck (name : String) : Option FuncDef :=
  (CHECKS.find? (fun p => p.1 == name)).map (·.2)

/-! ## String primitives

Python `.lower()`, `.strip()` and `.split(",")` modelled on character
lists (for the code points the checks can distinguish). -/

/-- Python `.lower()` on one character (ASCII letters). -/
def lowerChar (c : Char) : Char :=
  if 65 ≤ c.toNat && c.toNat ≤ 90 then Char.ofNat (c.toNat + 32) else c

/-- Python `.lower()` on a string. -/
def pyLower (cs : List Char) : List Char :=
  cs.map lowerChar

/-- The code points Python treats as whitespace.  `str.isspace()` (used by
`str.strip()`) and the regex class `\s` on `str` patterns accept exactly
this set: the ASCII whitespace characters, the C1 separators 1C-1F and 85,
NBSP, and the Unicode space separators. -/
def pySpace (c : Char) : Bool :=
  let n := c.toNat
  n == 32 || n == 9 || n == 10 || n == 13 || n == 11 || n == 12 ||
  n == 28 || n == 29 || n == 30 || n == 31 || n == 133 || n == 160 ||
  n == 5760 || (8192 ≤ n && n ≤ 8202) || n == 8232 || n == 8233 ||
  n == 8239 || n == 8287 || n == 12288

/-- Python `.strip()`: drop leading and trailing Unicode whitespace. -/
def stripChars (cs : List Char) : List Char :=
  ((cs.dropWhile pySpace).reverse.dropWhile pySpace).reverse

/-- Python `.split(",")`: split at every comma, keeping empty pieces, so the
result is never empty. -/
def splitComma : List Char → List (List Char)
  | [] => [[]]
  | c :: rest =>
    match splitComma rest with
    | [] => [[]]
    | g :: gs => if c = ',' then [] :: g :: gs else (c :: g) :: gs

/-! ## The individual check functions (`checks2.py`) -/

/-- `is_eq`: `"1" if answer == target else "0"`. -/
def is_eq (answer target : String) : String :=
  if answer == target then "1" else "0"

/-- `is_textual_eq`: equality after `.strip().lower()` on both sides. -/
def is_textual_eq (answer target : String) : String :=
  if pyLower (stripChars answer.toList) == pyLower (stripChars target.toList)
  then "1" else "0"

/-- `contains`: `"1" if target in answer else "0"`. -/
def contains (answer target : String) : String :=
  if occursIn target.toList answer.toList then "1" else "0"

/-- The character class `[\.\s\']` of the affirmative/negative patterns. -/
def padChar (c : Char) : Bool :=
  c == '.' || c == '\'' || pySpace c

/-- Matching of the part of the pattern after the keyword:
`[\.\s\']{0,10}$`.  Python `$` (without MULTILINE) matches at the end of
the string or just before one final newline, so a trailing newline after
up to ten pad characters is also accepted. -/
def tailMatch (r : List Char) : Bool :=
  (decide (r.length ≤ 10) && r.all padChar) ||
  (match r.getLast? with
   | some c => c == '\n' && decide (r.dropLast.length ≤ 10) && r.dropLast.all padChar
   | none => false)

/-- Full-anchored match of `^[\.\s\']{0,10}(w1|w2|w3)[\.\s\']{0,10}$` for the
given keyword list: some prefix of length `k ≤ 10` of pad characters, then a
keyword, then a tail accepted by `tailMatch`. -/
def reMatchB (ws : List (List Char)) (cs : List Char) : Bool :=
  (List.range 11).any fun k =>
    decide (k ≤ cs.length) && (cs.take k).all padChar &&
    ws.any fun w =>
      decide ((cs.drop k).take w.length = w) && tailMatch ((cs.drop k).drop w.length)

def affirmWords : List (List Char) := ["yes".toList, "true".toList, "positive".toList]

def negWords : List (List Char) := ["no".toList, "false".toList, "negative".toList]

/-- `affirmative`: regex match of yes/true/positive on the lowercased answer. -/
def affirmative (answer : String) : String :=
  if reMatchB affirmWords (pyLower answer.toList) then "1" else "0"

/-- `negative`: regex match of no/false/negative on the lowercased answer. -/
def negative (answer : String) : String :=
  if reMatchB negWords (pyLower answer.toList) then "1" else "0"

/-- `unknown`: stripped lowercased answer is one of the fixed phrases. -/
def unknown (answer : String) : String :=
  if (["unknown", "uncertain", "i do not know", "i don't know"].map
      String.toList).contains (pyLower (stripChars answer.toList))
  then "1" else "0"

/-- `is_eq_oneof`: `answer in targets`. -/
def is_eq_oneof (answer : String) (targets : List String) : String :=
  if targets.contains answer then "1" else "0"

/-- `is_textual_eq_oneof`: membership after strip/lower on both sides. -/
def is_textual_eq_oneof (answer : String) (targets : List String) : String :=
  if (targets.map fun t => pyLower (stripChars t.toList)).contains
      (pyLower (stripChars answer.toList))
  then "1" else "0"

/-- `contains_oneof`: `any(t in answer for t in targets)`. -/
def contains_oneof (answer : String) (targets : List String) : String :=
  if targets.any (fun t => occursIn t.toList answer.toList) then "1" else "0"

/-- `contains_all`: `all(t in answer for t in targets)`. -/
def contains_all (answer : String) (targets : List String) : String :=
  if targets.all (fun t => occursIn t.toList answer.toList) then "1" else "0"

/-! ## `extract_score` (`checks2.py`)

`re.findall(r'-?\d+\.?\d*', answer)` scans left to right; each match is an
optional minus sign, a nonempty greedy digit run, an optional dot, and a
greedy (possibly empty) digit run. -/

/-- The first code points of the Unicode decimal-digit runs (category Nd):
each run holds the digits 0-9 as ten consecutive code points.  Python `\d`
on a `str` pattern matches exactly these characters, and Python `float`
reads them by their decimal value. -/
def ndRangeStarts : List Nat :=
  [0x30, 0x660, 0x6f0, 0x7c0, 0x966, 0x9e6, 0xa66, 0xae6, 0xb66, 0xbe6,
   0xc66, 0xce6, 0xd66, 0xde6, 0xe50, 0xed0, 0xf20, 0x1040, 0x1090, 0x17e0,
   0x1810, 0x1946, 0x19d0, 0x1a80, 0x1a90, 0x1b50, 0x1bb0, 0x1c40, 0x1c50,
   0xa620, 0xa8d0, 0xa900, 0xa9d0, 0xa9f0, 0xaa50, 0xabf0, 0xff10, 0x104a0,
   0x10d30, 0x11066, 0x110f0, 0x11136, 0x111d0, 0x112f0, 0x11450, 0x114d0,
   0x11650, 0x116c0, 0x11730, 0x118e0, 0x11950, 0x11c50, 0x11d50, 0x11da0,
   0x16a60, 0x16ac0, 0x16b50, 0x1d7ce, 0x1d7d8, 0x1d7e2, 0x1d7ec, 0x1d7f6,
   0x1e140, 0x1e2f0, 0x1e950, 0x1fbf0]

/-- The character class `\d` of a Python regular expression on `str`: all
Unicode decimal digits. -/
def pyIsDigit (c : Char) : Bool :=
  ndRangeStarts.any fun b => b ≤ c.toNat && c.toNat ≤ b + 9

/-- The decimal value of a Unicode decimal digit: its offset inside its
run. -/
def digitVal (c : Char) : Nat :=
  ((ndRangeStarts.find? fun b => b ≤ c.toNat && c.toNat ≤ b + 9).map
    fun b => c.toNat - b).getD 0

/-- Continue a number match after the integer digit run: consume an optional
dot followed by a greedy digit run.  Returns the full match and the rest. -/
def afterDigits (acc : List Char) (rest : List Char) : List Char × List Char :=
  if rest.head? == some '.' then
    (acc ++ '.' :: rest.tail.takeWhile pyIsDigit, rest.tail.dropWhile pyIsDigit)
  else (acc, rest)

theorem dropWhile_len_le (p : Char → Bool) (l : List Char) :
    (l.dropWhile p).length ≤ l.length :=
  (List.dropWhile_sublist p).length_le

theorem afterDigits_snd_length (acc rest : List Char) :
    (afterDigits acc rest).2.length ≤ rest.length := by
  rw [afterDigits]
  split
  · rename_i h
    cases rest with
    | nil => simp at h
    | cons c r =>
      simp only [List.tail_cons, List.length_cons]
      exact Nat.le_succ_of_le (dropWhile_len_le _ r)
  · simp

/-- The embedding of `re.findall(r'-?\d+\.?\d*', cs)`: the list of
non-overlapping leftmost matches. -/
def findall : List Char → List (List Char)
  | [] => []
  | c :: rest =>
    if c = '-' then
      if (rest.takeWhile pyIsDigit).isEmpty then findall rest
      else
        let pr := afterDigits ('-' :: rest.takeWhile pyIsDigit) (rest.dropWhile pyIsDigit)
        pr.1 :: findall pr.2
    else if pyIsDigit c then
      let pr := afterDigits ((c :: rest).takeWhile pyIsDigit) ((c :: rest).dropWhile pyIsDigit)
      pr.1 :: findall pr.2
    else findall rest
termination_by cs => cs.length
decreasing_by
  · simp
  · have h1 := afterDigits_snd_length ('-' :: rest.takeWhile pyIsDigit)
      (rest.dropWhile pyIsDigit)
    have h2 := dropWhile_len_le pyIsDigit rest
    simp only [List.length_cons]
    omega
  · have h1 := afterDigits_snd_length ((c :: rest).takeWhile pyIsDigit)
      ((c :: rest).dropWhile pyIsDigit)
    have h2 : ((c :: rest).dropWhile pyIsDigit).length ≤ rest.length := by
      simp only [List.dropWhile_cons]
      split
      · exact dropWhile_len_le _ rest
      · simp_all
    simp only [List.length_cons]
    omega
  · simp

/-- Numeric value of a digit run, most significant digit first, as Python
`float` reads it. -/
def digitsToNat (ds : List Char) : Nat :=
  ds.foldl (fun n c => 10 * n + digitVal c) 0

/-- The rational value denoted by an unsigned match (digits, optional dot,
fraction digits); the embedding of Python `float` on such a literal. -/
def parseTokAbs (cs : List Char) : ℚ :=
  let ds := cs.takeWhile pyIsDigit
  let rest := cs.dropWhile pyIsDigit
  let fs := match rest with
            | '.' :: r => r.takeWhile pyIsDigit
            | _ => []
  (digitsToNat ds : ℚ) + (digitsToNat fs : ℚ) / ((10 : ℚ) ^ fs.length)

/-- The rational value denoted by a match of `-?\d+\.?\d*`. -/
def parseTok (cs : List Char) : ℚ :=
  match cs with
  | '-' :: rest => - parseTokAbs rest
  | _ => parseTokAbs cs

/-- `extract_score`: exactly one number in the answer, else an exception. -/
def extract_score (answer : String) : Except String ℚ :=
  let numbers := (findall answer.toList).map parseTok
  match numbers with
  | [v] => Except.ok v
  | _ => Except.error "Error: Expected exactly one number in the answer"

/-- Shape of a `-?\d+\.?\d*` match: optional sign, nonempty digit run,
optionally a dot followed only by digits. -/
def numShape (m : List Char) : Bool :=
  let core := if m.head? == some '-' then m.tail else m
  let ds := core.takeWhile pyIsDigit
  let rest := core.dropWhile pyIsDigit
  (!ds.isEmpty) &&
  (rest.isEmpty || (rest.head? == some '.' && rest.tail.all pyIsDigit))

/-! ## `check_check` (`ragability_check.py`)

The check dictionary is modelled with the fields `check_check` inspects:
presence and string-ness of `func`, presence of `metrics`, the optional
`args` list and the presence of `result`. -/

inductive FuncVal where
  | str (s : String)
  | nonstr
deriving DecidableEq, Repr

structure CCheck where
  func : Option FuncVal
  hasMetrics : Bool
  args : Option (List String)
  hasResult : Bool
deriving DecidableEq, Repr

/-- The embedding of `check_check(check, example, config)`; `allFlag` is
`config["all"]` (the example argument is only used for log messages). -/
def check_check (check : CCheck) (allFlag : Bool) : Bool :=
  match check.func with
  | none => false
  | some fv =>
    if !check.hasMetrics then false
    else
      match fv with
      | .nonstr => false
      | .str fname =>
        match lookupCheck fname with
        | none => false
        | some fd =>
          let args := check.args.getD []
          if fd.nargs ≠ args.length then false
          else if !allFlag && check.hasResult then false
          else true

/-! ## Dispatching registered check functions (`run_check` body, lines 170-184)

An application supplies the answer string and the `args` list; the verdict is
a string for the binary checks, a rational for `extract_score`, and `exn`
when the call raises (wrong arity / argument type, or the `extract_score`
exception). -/

inductive ArgV where
  | s (v : String)
  | ls (vs : List String)
deriving DecidableEq, Repr

inductive ResV where
  | str (s : String)
  | num (v : ℚ)
  | exn
deriving DecidableEq, Repr

/-- Apply the check function registered under `name` to an answer and the
positional arguments, as `func(response, *args)` does. -/
def applyCheckFn (name : String) (answer : String) (args : List ArgV) : ResV :=
  match name, args with
  | "is_eq", [.s t] => .str (is_eq answer t)
  | "is_textual_eq", [.s t] => .str (is_textual_eq answer t)
  | "contains", [.s t] => .str (contains answer t)
  | "affirmative", [] => .str (affirmative answer)
  | "negative", [] => .str (negative answer)
  | "unknown", [] => .str (unknown answer)
  | "is_eq_oneof", [.ls ts] => .str (is_eq_oneof answer ts)
  | "is_textual_eq_oneof", [.ls ts] => .str (is_textual_eq_oneof answer ts)
  | "contains_oneof", [.ls ts] => .str (contains_oneof answer ts)
  | "contains_all", [.ls ts] => .str (contains_all answer ts)
  | "extract_score", [] =>
    match extract_score answer with
    | .ok v => .num v
    | .error _ => .exn
  | _, _ => .exn

/-- A batch of check applications, each given by function name, answer and
arguments; the checks share no state, so the batch is a plain map. -/
def runChecks (apps : List (String × String × List ArgV)) : List ResV :=
  apps.map fun a => applyCheckFn a.1 a.2.1 a.2.2

/-! ## `read_input_file` record validation (`data.py`)

JSON-like values and records; `jget` is dictionary lookup.  Exceptions keep
their Python class: `ValueError` from the explicit `raise` statements,
`KeyError`/`TypeError` from bad subscripts in the dict-valued `func` branch. -/

inductive JVal where
  | null
  | str (s : String)
  | list (xs : List JVal)
  | dict (fs : List (String × JVal))
  | other

inductive PyError where
  | valueError (msg : String)
  | keyError
  | typeError
deriving DecidableEq, Repr

/-- Dictionary lookup `d[k]` / `d.get(k)` on an association list. -/
def jget (e : List (String × JVal)) (k : String) : Option JVal :=
  (e.find? (fun p => p.1 == k)).map (·.2)

/-- Python truth of `isinstance(v, (str, list))`. -/
def isStrOrList : JVal → Bool
  | .str _ => true
  | .list _ => true
  | _ => false

/-- `facts` passes when absent or `None` (both give `entry.get('facts') is
None`) or a string or a list. -/
def factsOk : Option JVal → Bool
  | none => true
  | some .null => true
  | some (.str _) => true
  | some (.list _) => true
  | some _ => false

/-- `'name' in v` for the value found under the (misspelled) `function` key:
dict key lookup, substring test on a string, membership on a list,
`TypeError` otherwise. -/
def hasNameIn : JVal → Except PyError Bool
  | .dict fs => .ok (jget fs "name").isSome
  | .str s => .ok (occursIn "name".toList s.toList)
  | .list xs => .ok (xs.any fun v => match v with
      | .str s => s == "name"
      | _ => false)
  | _ => .error .typeError

/-- The dict-valued `func` branch of `read_input_file` (lines 132-136):
it subscripts `check['function']` (`KeyError` when absent), tests `'name'`
membership there, then subscripts `check['func']['name']`. -/
def funcDictCheck (cd fd : List (String × JVal)) : Except PyError Unit :=
  match jget cd "function" with
  | none => .error .keyError
  | some v =>
    match hasNameIn v with
    | .error e => .error e
    | .ok false => .error (.valueError "Missing name field in func")
    | .ok true =>
      match jget fd "name" with
      | none => .error .keyError
      | some (.str _) => .ok ()
      | some _ => .error (.valueError "name field in func must be a string")

/-- The `func` validation of one check (lines 127-136). -/
def checkFuncField (cd : List (String × JVal)) : Except PyError Unit :=
  match jget cd "func" with
  | none => .ok ()
  | some (.str _) => .ok ()
  | some (.dict fd) => funcDictCheck cd fd
  | some _ => .error (.valueError "func field in check must be a string or dictionary")

/-- Validation of one check dict (lines 123-136): `query` must be a string
when present, then the `func` field is validated. -/
def checkOneCheck (cd : List (String × JVal)) : Except PyError Unit :=
  match jget cd "query" with
  | none => checkFuncField cd
  | some (.str _) => checkFuncField cd
  | some _ => .error (.valueError "query field in check must be a string")

/-- Validation of the `checks` list elements in order; a non-dict element
raises `ValueError` when reached. -/
def checkChecksList : List JVal → Except PyError Unit
  | [] => .ok ()
  | c :: rest =>
    match c with
    | .dict cd =>
      match checkOneCheck cd with
      | .ok _ => checkChecksList rest
      | .error e => .error e
    | _ => .error (.valueError "Check in entry is not a dict")

/-- Validation of one record by `read_input_file` (lines 100-136), in source
order: missing `qid` raises, missing `facts` only logs, missing `query`
raises, missing `checks` only warns, then the type checks run. -/
def checkEntry (r : List (String × JVal)) : Except PyError Unit :=
  if (jget r "qid").isNone then .error (.valueError "Missing qid field in entry")
  else if (jget r "query").isNone then .error (.valueError "Missing query field in entry")
  else if !factsOk (jget r "facts") then
    .error (.valueError "facts field must be a string or a list of strings")
  else
    match jget r "query" with
    | some (.str _) =>
      (match jget r "checks" with
       | none => .ok ()
       | some (.list cs) => checkChecksList cs
       | some _ => .error (.valueError "checks field must be a list"))
    | _ => .error (.valueError "query field must be a string")

/-- The validation loop of `read_input_file` over all records, in order. -/
def checkAllEntries : List (List (String × JVal)) → Except PyError Unit
  | [] => .ok ()
  | r :: rest =>
    match checkEntry r with
    | .error e => .error e
    | .ok _ => checkAllEntries rest

/-- `read_input_file` after the raw parse: validate every record in order and
return the full list when no record raises. -/
def read_input_file (data : List (List (String × JVal))) :
    Except PyError (List (List (String × JVal))) :=
  match checkAllEntries data with
  | .error e => .error e
  | .ok _ => .ok data

/-! ## The head of `ragability_check.run` (lines 187-202) -/

structure LLMRec where
  llmAlias : String
deriving DecidableEq, Repr

/-- The configuration fields `run` consults before reading any input:
`llms` (always present after `update_llm_config`), the raw `llm` list
(possibly absent), and `usellm` (empty string for absent/None). -/
structure RunConfig where
  llms : List LLMRec
  llm : Option (List LLMRec)
  usellm : String
deriving Repr

inductive RunOutcome where
  | errNoLLM
  | errKeyLlm
  | errAliasNotFound
  | proceed (llmname : String)
deriving DecidableEq, Repr

/-- The outcome of `run`'s LLM-selection prologue.  The loop that searches
for the alias assigns the misspelled `thellmname`, so `llmname` keeps its
initial empty value in the `usellm` branch. -/
def runHead (cfg : RunConfig) : RunOutcome :=
  if cfg.llms.length < 1 then .errNoLLM
  else
    let llmname := ""
    if cfg.usellm ≠ "" then
      match cfg.llm with
      | none => .errKeyLlm
      | some lst =>
        let _thellmname :=
          ((lst.find? (fun l => l.llmAlias == cfg.usellm)).map (·.llmAlias)).getD ""
        if llmname = "" then .errAliasNotFound
        else .proceed llmname
    else
      match cfg.llms.head? with
      | some l => .proceed l.llmAlias
      | none => .errNoLLM

/-! ## The evaluation pipeline (`ragability_eval.py`)

The input records are the output of the check stage: each query carries an
`error`, an `llm`, `qid`, `tags` and a list of checks, each with an `error`,
a `func` name, a `metrics` list and a `result`.  Empty strings stand for
Python falsy (missing/empty) `error` and `llm` values. -/

structure CheckRow where
  error : String
  func : String
  metrics : List String
  result : String
deriving DecidableEq, Repr

structure QueryRec where
  error : String
  llm : String
  qid : String
  tags : String
  checks : List CheckRow
deriving DecidableEq, Repr

/-- One row of a per-metric dataframe (the fields built in lines 123-131). -/
structure Row where
  target : String
  result : String
  qid : String
  tags : String
  llm : String
  func : String
  kind : String
deriving DecidableEq, Repr

/-- A collected row is filed under its kind and metric (`checksdata`). -/
structure Entry where
  kind : String
  metric : String
  row : Row
deriving DecidableEq, Repr

/-- The state of the collection loop of `run` (lines 91-141).  `crashed`
records an uncaught exception (missing `llm` raises `ValueError`,
`funcdef["kind"]` on a missing function subscripts `None`); `guardHit`
records whether the `if not funcdef` guard body was ever entered. -/
structure EvalOut where
  entries : List Entry
  nErrors : Nat
  ncErrors : Nat
  crashed : Bool
  guardHit : Bool
deriving DecidableEq, Repr

/-- The rows a single check contributes: one per element of its `metrics`
list. -/
def rowsFor (q : QueryRec) (fd : FuncDef) (c : CheckRow) : List Entry :=
  c.metrics.map fun metric =>
    ⟨fd.kind, metric, ⟨fd.target, c.result, q.qid, q.tags, q.llm, c.func, fd.kind⟩⟩

/-- The body of the inner check loop (lines 107-141).  `funcdef["kind"]` is
evaluated before the `if not funcdef` guard, so a missing function crashes
and the guard (which would count a check error) is dead code. -/
def processCheck (q : QueryRec) (st : EvalOut) (c : CheckRow) : EvalOut :=
  if st.crashed then st
  else if c.error ≠ "" then { st with ncErrors := st.ncErrors + 1 }
  else
    match lookupCheck c.func with
    | none => { st with crashed := true }
    | some fd =>
      if (lookupCheck c.func).isNone then
        { st with ncErrors := st.ncErrors + 1, guardHit := true }
      else
        { st with entries := st.entries ++ rowsFor q fd c }

/-- The body of the outer query loop (lines 98-141): a falsy `llm` raises,
a truthy `error` counts the query as errored and skips it, otherwise every
check is processed. -/
def processQuery (st : EvalOut) (q : QueryRec) : EvalOut :=
  if st.crashed then st
  else if q.llm = "" then { st with crashed := true }
  else if q.error ≠ "" then { st with nErrors := st.nErrors + 1 }
  else q.checks.foldl (processCheck q) st

/-- The whole collection loop over the input records. -/
def evalCollect (qs : List QueryRec) : EvalOut :=
  qs.foldl processQuery ⟨[], 0, 0, false, false⟩

/-! Aggregation (lines 147-232). -/

/-- The dataframe stored under `kind:metric` in `checkdfs`. -/
def metricDF (entries : List Entry) (kind metric : String) : List Row :=
  (entries.filter fun e => e.kind == kind && e.metric == metric).map (·.row)

/-- The distinct `kind:metric` keys of `checkdfs`. -/
def keysOf (entries : List Entry) : List (String × String) :=
  (entries.map fun e => (e.kind, e.metric)).dedup

/-- The distinct llm values a `groupby("llm")` iterates over. -/
def llmsOf (rows : List Row) : List String :=
  (rows.map (·.llm)).dedup

/-- The rows of one llm group. -/
def llmGroup (rows : List Row) (llm : String) : List Row :=
  rows.filter fun r => r.llm == llm

/-- The `(y_true, y_pred)` columns passed to `sk.metrics.accuracy_score`. -/
def pairsOf (rows : List Row) : List (String × String) :=
  rows.map fun r => (r.target, r.result)

/-- `sklearn` accuracy: the fraction of positions where the prediction
equals the truth. -/
def accuracy_score (pairs : List (String × String)) : ℚ :=
  ((pairs.countP fun p => p.1 == p.2 : ℚ)) / (pairs.length : ℚ)

/-- One row of the long report dataframe. -/
structure StatRow where
  group : String
  llm : String
  metric : String
  value : ℚ
deriving DecidableEq, Repr

/-- `key.split(":")` on a character list: split at every colon, keeping
empty pieces, so the result is never empty. -/
def splitColon : List Char → List (List Char)
  | [] => [[]]
  | c :: rest =>
    match splitColon rest with
    | [] => [[]]
    | g :: gs => if c = ':' then [] :: g :: gs else (c :: g) :: gs

/-- The key `kind:metric` under which a dataframe is stored in
`checkdfs` (line 152). -/
def keyString (kind metric : String) : String :=
  kind ++ ":" ++ metric

/-- The tuple unpack `kind, metric = key.split(":")` (lines 174 and 212):
it succeeds only when the split yields exactly two parts; for a metric name
containing a colon the program raises `ValueError` instead. -/
def unpackKey (key : String) : Option (String × String) :=
  match splitColon key.toList with
  | [k, m] => some (String.mk k, String.mk m)
  | _ => none

/-- The two statistics rows per llm for one stored dataframe in the
ungrouped pass (lines 175-200); the statistic labels use the metric part of
the unpacked key. -/
def statsForKeyL (entries : List Entry) (km : String × String)
    (metricLabel : String) : List StatRow :=
  (llmsOf (metricDF entries km.1 km.2)).flatMap fun llm =>
    let g := llmGroup (metricDF entries km.1 km.2) llm
    [⟨"all", llm, metricLabel ++ ":accuracy", accuracy_score (pairsOf g)⟩,
     ⟨"all", llm, metricLabel ++ ":n", (g.length : ℚ)⟩]

/-- The statistics rows of one `kind:metric` dataframe when the unpack of
its key has succeeded: the unpacked parts then equal the stored ones. -/
def statsForKey (entries : List Entry) (kind metric : String) : List StatRow :=
  statsForKeyL entries (kind, metric) metric

/-- The rows of an ungrouped report pass in which every key unpack
succeeds: the payload of `dfrowsAllE`'s success value. -/
def dfrowsAll (entries : List Entry) : List StatRow :=
  (keysOf entries).flatMap fun km => statsForKey entries km.1 km.2

/-- The ungrouped report pass over the stored keys in order (lines
171-200), including the `kind, metric = key.split(":")` unpack of line
174: a key that does not split into exactly two parts raises `ValueError`,
so the run emits nothing at all. -/
def dfrowsAllGo (entries : List Entry) :
    List (String × String) → Except Unit (List StatRow)
  | [] => .ok []
  | km :: rest =>
    match unpackKey (keyString km.1 km.2) with
    | none => .error ()
    | some p =>
      match dfrowsAllGo entries rest with
      | .error e => .error e
      | .ok tail => .ok (statsForKeyL entries km p.2 ++ tail)

def dfrowsAllE (entries : List Entry) : Except Unit (List StatRow) :=
  dfrowsAllGo entries (keysOf entries)

/-- The grouping function returned by `make_grouping_func(df, tags=tags)`:
a row belongs to the `True` group when every requested tag occurs among the
comma-split, stripped elements of its `tags` field. -/
def the_groupby_func (tags : List String) (r : Row) : Bool :=
  tags.all fun t => ((splitComma r.tags.toList).map stripChars).contains t.toList

/-- The rows of one boolean group in the by-tag pass. -/
def groupRows (df : List Row) (tagname : String) (b : Bool) : List Row :=
  df.filter fun r => the_groupby_func [tagname] r == b

/-- `df.groupby(grouping_func)`: nonempty groups only, `False` before
`True`. -/
def tagGroupsDF (df : List Row) (tagname : String) : List (Bool × List Row) :=
  (if (groupRows df tagname false).isEmpty then []
   else [(false, groupRows df tagname false)]) ++
  (if (groupRows df tagname true).isEmpty then []
   else [(true, groupRows df tagname true)])

/-- The by-tag statistics rows for one stored dataframe (lines 210-232):
each nonempty boolean group labelled `tagname:yes` or `tagname:no`, and per
llm subgroup the same accuracy and count statistics as the `all` pass; the
statistic labels use the metric part of the unpacked key. -/
def byTagStatsForKey (entries : List Entry) (tagname : String)
    (km : String × String) (metricLabel : String) : List StatRow :=
  (tagGroupsDF (metricDF entries km.1 km.2) tagname).flatMap fun g =>
    let groupname := if g.1 then tagname ++ ":yes" else tagname ++ ":no"
    (llmsOf g.2).flatMap fun llm =>
      let gg := llmGroup g.2 llm
      [⟨groupname, llm, metricLabel ++ ":accuracy", accuracy_score (pairsOf gg)⟩,
       ⟨groupname, llm, metricLabel ++ ":n", (gg.length : ℚ)⟩]

/-- The rows of a by-tag pass in which every key unpack succeeds: the
payload of `byTagStatsE`'s success value. -/
def byTagStats (entries : List Entry) (tagname : String) : List StatRow :=
  (keysOf entries).flatMap fun km => byTagStatsForKey entries tagname km km.2

/-- The by-tag report pass for one tag name (lines 207-232), including the
`kind, metric = key.split(":")` unpack of line 212: a key that does not
split into exactly two parts raises `ValueError`. -/
def byTagStatsGo (entries : List Entry) (tagname : String) :
    List (String × String) → Except Unit (List StatRow)
  | [] => .ok []
  | km :: rest =>
    match unpackKey (keyString km.1 km.2) with
    | none => .error ()
    | some p =>
      match byTagStatsGo entries tagname rest with
      | .error e => .error e
      | .ok tail => .ok (byTagStatsForKey entries tagname km p.2 ++ tail)

def byTagStatsE (entries : List Entry) (tagname : String) :
    Except Unit (List StatRow) :=
  byTagStatsGo entries tagname (keysOf entries)

/-! Specification-side descriptions of the collected rows, used to state the
aggregation claims independently of the loop state threading. -/

/-- The entries contributed by one check: nothing when the check carries an
error or its function is unknown, otherwise one entry per metric. -/
def checkEntries (q : QueryRec) (c : CheckRow) : List Entry :=
  if c.error ≠ "" then []
  else
    match lookupCheck c.func with
    | none => []
    | some fd => rowsFor q fd c

/-- The entries contributed by one query: nothing when it carries an error. -/
def queryEntries (q : QueryRec) : List Entry :=
  if q.error = "" then q.checks.flatMap (checkEntries q) else []

/-- All entries, described directly from the input records. -/
def specEntries (qs : List QueryRec) : List Entry :=
  qs.flatMap queryEntries

/-- Claim-side count of the rows of a `kind`/`metric` dataframe belonging to
one llm: error-free checks of error-free queries of that llm contribute one
row per occurrence of the metric name in their `metrics` list, provided the
check function is registered with that kind. -/
def specCount (qs : List QueryRec) (kind metric llm : String) : Nat :=
  (qs.map fun q =>
    if q.error = "" && q.llm == llm then
      (q.checks.map fun c =>
        if c.error = "" then
          match lookupCheck c.func with
          | some fd => if fd.kind == kind then c.metrics.count metric else 0
          | none => 0
        else 0).sum
    else 0).sum

/-- Membership of a tag name in a row tags string, as the claim describes
it: split on commas, strip whitespace, test membership. -/
def hasTag (tagname tags : String) : Bool :=
  ((splitComma tags.toList).map stripChars).contains tagname.toList

/-- The rows of one metric dataframe selected by tag membership, as the
claim describes the two by-tag groups. -/
def tagSel (entries : List Entry) (kind metric tagname : String) (yes : Bool) :
    List Row :=
  (metricDF entries kind metric).filter fun r => hasTag tagname r.tags == yes

/-! ## Claim-side predicates

These definitions follow the words of the specification claims (not the
source); the theorems compare them against the embedded code. -/

/-- The claim's reading of the affirmative/negative patterns: a keyword
preceded and followed by at most ten characters drawn from period,
whitespace and single quote — with no provision for a trailing newline. -/
def PadWrap (ws : List (List Char)) (cs : List Char) : Prop :=
  ∃ p w s, w ∈ ws ∧ cs = p ++ w ++ s ∧
    p.length ≤ 10 ∧ p.all padChar = true ∧ s.length ≤ 10 ∧ s.all padChar = true

/-- What the code actually accepts: as `PadWrap`, but Python `$` also
matches just before one final newline. -/
def PadWrapNL (ws : List (List Char)) (cs : List Char) : Prop :=
  ∃ p w s, w ∈ ws ∧ (cs = p ++ w ++ s ∨ cs = p ++ w ++ s ++ ['\n']) ∧
    p.length ≤ 10 ∧ p.all padChar = true ∧ s.length ≤ 10 ∧ s.all padChar = true

/-- Executable form of the claim's matcher (`tailMatch` without the
trailing-newline disjunct), used to decide `PadWrap` at concrete inputs. -/
def claimMatchB (ws : List (List Char)) (cs : List Char) : Bool :=
  (List.range 11).any fun k =>
    decide (k ≤ cs.length) && (cs.take k).all padChar &&
    ws.any fun w =>
      decide ((cs.drop k).take w.length = w) &&
      (decide (((cs.drop k).drop w.length).length ≤ 10) &&
       ((cs.drop k).drop w.length).all padChar)

/-- The C3 claim's skip conditions, literally: the last clause requires the
check to actually carry an `args` list. -/
def ClaimC3Bad (c : CCheck) : Prop :=
  c.func = none ∨ c.hasMetrics = false ∨ c.func = some .nonstr ∨
  (∃ s, c.func = some (.str s) ∧ lookupCheck s = none) ∨
  (∃ s fd l, c.func = some (.str s) ∧ lookupCheck s = some fd ∧
    c.args = some l ∧ fd.nargs ≠ l.length)

/-- The C3 claim as stated: the listed conditions force `False`; otherwise
`all` or a missing `result` forces `True`. -/
def ClaimC3 (c : CCheck) (allFlag : Bool) : Prop :=
  (ClaimC3Bad c → check_check c allFlag = false) ∧
  (¬ ClaimC3Bad c → (allFlag = true ∨ c.hasResult = false) →
    check_check c allFlag = true)

/-- The amended skip conditions: the arity test uses the effective `args`
list, the empty list when the field is absent. -/
def AmendedC3Bad (c : CCheck) : Prop :=
  c.func = none ∨ c.hasMetrics = false ∨ c.func = some .nonstr ∨
  (∃ s, c.func = some (.str s) ∧ lookupCheck s = none) ∨
  (∃ s fd, c.func = some (.str s) ∧ lookupCheck s = some fd ∧
    fd.nargs ≠ (c.args.getD []).length)

/-- A JSON value that is a list whose members are all dicts. -/
def IsListOfDicts (v : JVal) : Prop :=
  ∃ cs, v = JVal.list cs ∧ ∀ c ∈ cs, ∃ cd, c = JVal.dict cd

/-- The C8 claim's rejection conditions, literally: a record lacking `qid`
or `query`, a non-string `query`, a `facts` value that is neither a string
nor a list, or a `checks` value that is not a list of dicts. -/
def ClaimC8Bad (r : List (String × JVal)) : Prop :=
  jget r "qid" = none ∨ jget r "query" = none ∨
  (∃ v, jget r "query" = some v ∧ ∀ s, v ≠ JVal.str s) ∨
  (∃ v, jget r "facts" = some v ∧ isStrOrList v = false) ∨
  (∃ v, jget r "checks" = some v ∧ ¬ IsListOfDicts v)

/-- Per-check well-formedness used in the acceptance direction: `query`
and `func` absent or strings. -/
def checkOkB (cd : List (String × JVal)) : Bool :=
  (match jget cd "query" with
   | none => true
   | some (.str _) => true
   | _ => false) &&
  (match jget cd "func" with
   | none => true
   | some (.str _) => true
   | _ => false)

/-- A record that is accepted: `qid` present, `query` a string, `facts`
absent, null, a string or a list, and `checks` absent or a list of
well-formed check dicts. -/
def okRecord (r : List (String × JVal)) : Bool :=
  (jget r "qid").isSome &&
  (match jget r "query" with
   | some (.str _) => true
   | _ => false) &&
  factsOk (jget r "facts") &&
  (match jget r "checks" with
   | none => true
   | some (.list cs) => cs.all fun c =>
       match c with
       | .dict cd => checkOkB cd
       | _ => false
   | some _ => false)

/-! ## Concrete inputs used by counterexamples and witnesses -/

/-- A record with `qid`, a string `query` and an explicit JSON `null` under
`facts`. -/
def c8rec : List (String × JVal) :=
  [("qid", JVal.str "1"), ("query", JVal.str "q"), ("facts", JVal.null)]

/-- One error-free query of LLM `L` whose two error-free checks use
functions of different kinds (`is_eq` is `binary`, `extract_score` is
`score`) but list the same metric name `m`; the first check is correct for
its target, the second is not. -/
def c1badqs : List QueryRec :=
  [⟨"", "L", "q1", "", [⟨"", "is_eq", ["m"], "1"⟩, ⟨"", "extract_score", ["m"], "5"⟩]⟩]

/-- One error-free query of LLM `L` with one correct `is_eq` check on
metric `m`. -/
def c1okqs : List QueryRec :=
  [⟨"", "L", "q1", "t1, t2", [⟨"", "is_eq", ["m"], "1"⟩]⟩]

/-! # Theorems -/

/-! ## Substring search -/

theorem listStartsWith_iff (a w : List Char) :
    listStartsWith a w = true ↔ ∃ r, a = w ++ r := by
  induction w generalizing a with
  | nil => simp [listStartsWith]
  | cons x xs ih =>
    cases a with
    | nil => simp [listStartsWith]
    | cons c cs =>
      simp only [listStartsWith, Bool.and_eq_true, beq_iff_eq, ih, List.cons_append,
        List.cons.injEq]
      constructor
      · rintro ⟨rfl, r, rfl⟩
        exact ⟨r, rfl, rfl⟩
      · rintro ⟨r, rfl, rfl⟩
        exact ⟨rfl, r, rfl⟩

theorem occursIn_iff (t a : List Char) :
    occursIn t a = true ↔ ∃ p s, a = p ++ t ++ s := by
  induction a with
  | nil =>
    simp only [occursIn, List.isEmpty_iff]
    constructor
    · rintro rfl
      exact ⟨[], [], rfl⟩
    · rintro ⟨p, s, h⟩
      rcases List.append_eq_nil.mp h.symm with ⟨h1, -⟩
      exact (List.append_eq_nil.mp h1).2
  | cons c cs ih =>
    simp only [occursIn, Bool.or_eq_true, listStartsWith_iff, ih]
    constructor
    · rintro (⟨r, h⟩ | ⟨p, s, h⟩)
      · exact ⟨[], r, by simpa using h⟩
      · exact ⟨c :: p, s, by simp [h]⟩
    · rintro ⟨p, s, h⟩
      cases p with
      | nil => exact Or.inl ⟨s, by simpa using h⟩
      | cons x xs =>
        simp only [List.cons_append, List.cons.injEq] at h
        exact Or.inr ⟨xs, s, h.2⟩

/-- C5: the exact-match check `is_eq` returns `"1"` exactly when the answer
equals the target and `"0"` otherwise, the substring check `contains`
returns `"1"` exactly when the target occurs inside the answer and `"0"`
otherwise, and neither returns any other value. -/
theorem c5_is_eq_contains_verdicts (a t : String) :
    (is_eq a t = "1" ↔ a = t) ∧ (is_eq a t = "0" ↔ a ≠ t) ∧
    (contains a t = "1" ↔ ∃ p s, a.toList = p ++ t.toList ++ s) ∧
    (contains a t = "0" ↔ ¬ ∃ p s, a.toList = p ++ t.toList ++ s) ∧
    (is_eq a t = "1" ∨ is_eq a t = "0") ∧
    (contains a t = "1" ∨ contains a t = "0") := by
  have hne : ("1" : String) ≠ "0" := by decide
  have hsub := occursIn_iff t.toList a.toList
  refine ⟨?_, ?_, ?_, ?_, ?_, ?_⟩ <;>
    simp only [is_eq, contains] <;>
    split <;>
    simp_all

/-! ## The affirmative/negative matcher -/

theorem tailMatch_iff (r : List Char) :
    tailMatch r = true ↔
      (r.length ≤ 10 ∧ r.all padChar = true) ∨
      (∃ r2, r = r2 ++ ['\n'] ∧ r2.length ≤ 10 ∧ r2.all padChar = true) := by
  rcases hr : r.getLast? with - | c
  · have hnil : r = [] := List.getLast?_eq_none_iff.mp hr
    subst hnil
    simp [tailMatch]
  · have hne : r ≠ [] := by
      intro h
      subst h
      simp at hr
    obtain ⟨r2, a, rfl⟩ : ∃ r2 a, r = r2 ++ [a] :=
      ⟨r.dropLast, r.getLast hne, (List.dropLast_concat_getLast hne).symm⟩
    rw [List.getLast?_concat] at hr
    obtain rfl : a = c := by injection hr
    simp only [tailMatch, List.getLast?_concat, List.dropLast_concat,
      Bool.or_eq_true, Bool.and_eq_true, decide_eq_true_eq, beq_iff_eq]
    constructor
    · rintro (⟨h1, h2⟩ | ⟨⟨rfl, h1⟩, h2⟩)
      · exact Or.inl ⟨h1, h2⟩
      · exact Or.inr ⟨r2, rfl, h1, h2⟩
    · rintro (⟨h1, h2⟩ | ⟨r3, heq, h1, h2⟩)
      · exact Or.inl ⟨h1, h2⟩
      · have hlen : r2.length = r3.length := by
          have := congrArg List.length heq
          simpa using this
        obtain ⟨rfl, h3⟩ := List.append_inj heq hlen
        have h4 : a = '\n' := by injection h3
        exact Or.inr ⟨⟨h4, h1⟩, h2⟩

/-- The generic wrap pattern behind `reMatchB` and `claimMatchB`: some pad
prefix of length at most ten, a keyword, and a tail accepted by `tb`. -/
theorem wrap_iff (tb : List Char → Bool) (ws : List (List Char)) (cs : List Char) :
    ((List.range 11).any fun k =>
      decide (k ≤ cs.length) && (cs.take k).all padChar &&
      ws.any fun w =>
        decide ((cs.drop k).take w.length = w) && tb ((cs.drop k).drop w.length)) = true ↔
    ∃ p w s, w ∈ ws ∧ cs = p ++ w ++ s ∧
      p.length ≤ 10 ∧ p.all padChar = true ∧ tb s = true := by
  simp only [List.any_eq_true, List.mem_range, Bool.and_eq_true, decide_eq_true_eq]
  constructor
  · rintro ⟨k, hk, ⟨hkle, hpad⟩, w, hw, htake, htail⟩
    refine ⟨cs.take k, w, (cs.drop k).drop w.length, hw, ?_, ?_, hpad, htail⟩
    · conv_lhs => rw [← List.take_append_drop k cs]
      conv_lhs => rw [← List.take_append_drop w.length (cs.drop k)]
      rw [htake, List.append_assoc]
    · rw [List.length_take]
      omega
  · rintro ⟨p, w, s, hw, rfl, hp10, hppad, htb⟩
    refine ⟨p.length, by omega, ⟨by simp, ?_⟩, w, hw, ?_, ?_⟩
    · rw [List.append_assoc, List.take_left]
      exact hppad
    · rw [List.append_assoc, List.drop_left, List.take_left]
    · rw [List.append_assoc, List.drop_left, List.drop_left]
      exact htb

theorem reMatchB_iff (ws : List (List Char)) (cs : List Char) :
    reMatchB ws cs = true ↔ PadWrapNL ws cs := by
  rw [reMatchB, wrap_iff tailMatch ws cs]
  constructor
  · rintro ⟨p, w, s, hw, rfl, hp10, hppad, htb⟩
    rcases (tailMatch_iff s).mp htb with ⟨hs10, hspad⟩ | ⟨r2, rfl, hs10, hspad⟩
    · exact ⟨p, w, s, hw, Or.inl rfl, hp10, hppad, hs10, hspad⟩
    · exact ⟨p, w, r2, hw, Or.inr (by simp [List.append_assoc]), hp10, hppad, hs10, hspad⟩
  · rintro ⟨p, w, s, hw, hcs | hcs, hp10, hppad, hs10, hspad⟩
    · exact ⟨p, w, s, hw, hcs, hp10, hppad, (tailMatch_iff s).mpr (Or.inl ⟨hs10, hspad⟩)⟩
    · refine ⟨p, w, s ++ ['\n'], hw, ?_, hp10, hppad,
        (tailMatch_iff _).mpr (Or.inr ⟨s, rfl, hs10, hspad⟩)⟩
      rw [hcs, List.append_assoc]

theorem claimMatchB_iff (ws : List (List Char)) (cs : List Char) :
    claimMatchB ws cs = true ↔ PadWrap ws cs := by
  rw [claimMatchB]
  have h := wrap_iff (fun r => decide (r.length ≤ 10) && r.all padChar) ws cs
  rw [h]
  constructor
  · rintro ⟨p, w, s, hw, rfl, hp10, hppad, htb⟩
    rw [Bool.and_eq_true, decide_eq_true_eq] at htb
    exact ⟨p, w, s, hw, rfl, hp10, hppad, htb.1, htb.2⟩
  · rintro ⟨p, w, s, hw, rfl, hp10, hppad, hs10, hspad⟩
    exact ⟨p, w, s, hw, rfl, hp10, hppad, by simp [hs10, hspad]⟩

/-- C6 counterexample: on the answer consisting of `yes`, ten spaces and a
final newline, `affirmative` returns `"1"` although the lowercased answer is
not a keyword preceded and followed by at most ten characters from the
period/whitespace/quote class — it has eleven trailing characters.  Python
`$` matches before the final newline, which the claim's description omits. -/
theorem c6_claim_counterexample :
    affirmative "yes          \n" = "1" ∧
    ¬ PadWrap affirmWords (pyLower "yes          \n".toList) := by
  constructor
  · decide
  · intro h
    have h1 : claimMatchB affirmWords (pyLower "yes          \n".toList) = true :=
      (claimMatchB_iff _ _).mpr h
    have h2 : claimMatchB affirmWords (pyLower "yes          \n".toList) = false := by
      decide
    rw [h1] at h2
    exact absurd h2 (by simp)

/-- C6 (amended): `affirmative` returns `"1"` exactly when the lowercased
answer is one of yes/true/positive preceded by at most ten characters from
the period/whitespace/single-quote class and followed by at most ten such
characters optionally terminated by one final newline, and returns `"0"`
otherwise; `negative` behaves identically with no/false/negative. -/
theorem c6_amended_affirmative_negative (answer : String) :
    (affirmative answer = "1" ↔ PadWrapNL affirmWords (pyLower answer.toList)) ∧
    (affirmative answer = "0" ↔ ¬ PadWrapNL affirmWords (pyLower answer.toList)) ∧
    (negative answer = "1" ↔ PadWrapNL negWords (pyLower answer.toList)) ∧
    (negative answer = "0" ↔ ¬ PadWrapNL negWords (pyLower answer.toList)) := by
  have hne : ("1" : String) ≠ "0" := by decide
  have ha := reMatchB_iff affirmWords (pyLower answer.toList)
  have hn := reMatchB_iff negWords (pyLower answer.toList)
  refine ⟨?_, ?_, ?_, ?_⟩ <;>
    simp only [affirmative, negative] <;>
    split <;>
    simp_all

/-! ## `extract_score` and the number scanner -/

theorem takeWhile_append_all {p : Char → Bool} (ds l : List Char)
    (h : ds.all p = true) :
    (ds ++ l).takeWhile p = ds ++ l.takeWhile p := by
  induction ds with
  | nil => simp
  | cons d dt ih =>
    simp only [List.all_cons, Bool.and_eq_true] at h
    simp [List.takeWhile_cons_of_pos h.1, ih h.2]

theorem dropWhile_append_all {p : Char → Bool} (ds l : List Char)
    (h : ds.all p = true) :
    (ds ++ l).dropWhile p = l.dropWhile p := by
  induction ds with
  | nil => simp
  | cons d dt ih =>
    simp only [List.all_cons, Bool.and_eq_true] at h
    simp [List.dropWhile_cons_of_pos h.1, ih h.2]

theorem afterDigits_append (acc rest : List Char) :
    (afterDigits acc rest).1 ++ (afterDigits acc rest).2 = acc ++ rest := by
  rw [afterDigits]
  split
  · rename_i h
    cases rest with
    | nil => simp at h
    | cons c r =>
      have hc : c = '.' := by
        simpa using h
      subst hc
      simp [List.append_assoc, List.cons_append, List.takeWhile_append_dropWhile]
  · rfl

/-- The match `afterDigits` builds extends its accumulator with nothing or
with a dot followed by digits. -/
theorem afterDigits_parts (acc r0 : List Char) :
    ∃ tail, (afterDigits acc r0).1 = acc ++ tail ∧
      (tail = [] ∨ ∃ fs, tail = '.' :: fs ∧ fs.all pyIsDigit = true) := by
  rw [afterDigits]
  split
  · exact ⟨'.' :: r0.tail.takeWhile pyIsDigit, rfl,
      Or.inr ⟨r0.tail.takeWhile pyIsDigit, rfl, List.all_takeWhile⟩⟩
  · exact ⟨[], by simp, Or.inl rfl⟩

/-- A nonempty digit run followed by an optional dot-and-digits tail has the
shape of a `-?\d+\.?\d*` match, with or without the sign. -/
theorem numShape_build (tw tail : List Char) (htw : tw ≠ [])
    (htwd : tw.all pyIsDigit = true)
    (htail : tail = [] ∨ ∃ fs, tail = '.' :: fs ∧ fs.all pyIsDigit = true) :
    numShape (tw ++ tail) = true ∧ numShape ('-' :: (tw ++ tail)) = true := by
  obtain ⟨d, dt, rfl⟩ : ∃ d dt, tw = d :: dt := by
    cases tw with
    | nil => exact absurd rfl htw
    | cons d dt => exact ⟨d, dt, rfl⟩
  have hd : pyIsDigit d = true := by
    simp only [List.all_cons, Bool.and_eq_true] at htwd
    exact htwd.1
  have hdne : (d == '-') = false := by
    rcases hbe : d == '-' with - | -
    · rfl
    · rw [beq_iff_eq] at hbe
      subst hbe
      exact absurd hd (by decide)
  have hcore1 : ((d :: dt ++ tail).head? == some '-') = false := by
    simp only [List.cons_append, List.head?_cons]
    simpa using hdne
  have hcore2 : (('-' :: (d :: dt ++ tail)).head? == some '-') = true := by
    simp
  have hbody : (!(((d :: dt) ++ tail).takeWhile pyIsDigit).isEmpty) &&
      ((((d :: dt) ++ tail).dropWhile pyIsDigit).isEmpty ||
       ((((d :: dt) ++ tail).dropWhile pyIsDigit).head? == some '.' &&
        (((d :: dt) ++ tail).dropWhile pyIsDigit).tail.all pyIsDigit)) = true := by
    rw [takeWhile_append_all _ _ htwd, dropWhile_append_all _ _ htwd]
    rcases htail with rfl | ⟨fs, rfl, hfs⟩
    · simp
    · have hdot : pyIsDigit '.' = false := by decide
      rw [List.takeWhile_cons_of_neg (by simp [hdot]),
        List.dropWhile_cons_of_neg (by simp [hdot])]
      simp [hfs]
  constructor
  · rw [numShape]
    simp only [hcore1, if_neg]
    simpa using hbody
  · rw [numShape]
    simp only [hcore2, if_pos, List.tail_cons]
    simpa using hbody

/-- Every match `findall` produces occurs inside the scanned string and has
the shape of the pattern. -/
theorem findall_mem_shape (cs : List Char) :
    ∀ m ∈ findall cs, (∃ p s, cs = p ++ m ++ s) ∧ numShape m = true := by
  induction cs using findall.induct with
  | case1 =>
    intro m hm
    simp [findall] at hm
  | case2 rest hemp ih =>
    intro m hm
    rw [findall, if_pos rfl, if_pos hemp] at hm
    obtain ⟨⟨p, s, hdec⟩, hshape⟩ := ih m hm
    exact ⟨⟨'-' :: p, s, by simp [hdec]⟩, hshape⟩
  | case3 rest hemp prv ih =>
    intro m hm
    rw [findall, if_pos rfl, if_neg hemp] at hm
    have htw : rest.takeWhile pyIsDigit ≠ [] := by
      simpa [List.isEmpty_iff] using hemp
    have hsplit : prv.1 ++ prv.2 = '-' :: rest := by
      rw [afterDigits_append]
      simp [List.takeWhile_append_dropWhile]
    rcases List.mem_cons.mp hm with rfl | hm2
    · refine ⟨⟨[], prv.2, by simpa using hsplit.symm⟩, ?_⟩
      obtain ⟨tail, heq, htail⟩ :=
        afterDigits_parts ('-' :: rest.takeWhile pyIsDigit)
          (rest.dropWhile pyIsDigit)
      have heq2 : prv.1 = '-' :: (rest.takeWhile pyIsDigit ++ tail) := heq
      rw [heq2]
      exact (numShape_build _ tail htw List.all_takeWhile htail).2
    · obtain ⟨⟨p, s, hdec⟩, hshape⟩ := ih m hm2
      refine ⟨⟨prv.1 ++ p, s, ?_⟩, hshape⟩
      calc '-' :: rest = prv.1 ++ prv.2 := hsplit.symm
        _ = prv.1 ++ (p ++ m ++ s) := by rw [hdec]
        _ = (prv.1 ++ p) ++ m ++ s := by simp [List.append_assoc]
  | case4 c rest hne hdig prv ih =>
    intro m hm
    rw [findall, if_neg hne, if_pos hdig] at hm
    have htw : (c :: rest).takeWhile pyIsDigit ≠ [] := by
      rw [List.takeWhile_cons_of_pos hdig]
      simp
    have hsplit : prv.1 ++ prv.2 = c :: rest := by
      rw [afterDigits_append]
      simp [List.takeWhile_append_dropWhile]
    rcases List.mem_cons.mp hm with rfl | hm2
    · refine ⟨⟨[], prv.2, by simpa using hsplit.symm⟩, ?_⟩
      obtain ⟨tail, heq, htail⟩ :=
        afterDigits_parts ((c :: rest).takeWhile pyIsDigit)
          ((c :: rest).dropWhile pyIsDigit)
      have heq2 : prv.1 = (c :: rest).takeWhile pyIsDigit ++ tail := heq
      rw [heq2]
      exact (numShape_build _ tail htw List.all_takeWhile htail).1
    · obtain ⟨⟨p, s, hdec⟩, hshape⟩ := ih m hm2
      refine ⟨⟨prv.1 ++ p, s, ?_⟩, hshape⟩
      calc c :: rest = prv.1 ++ prv.2 := hsplit.symm
        _ = prv.1 ++ (p ++ m ++ s) := by rw [hdec]
        _ = (prv.1 ++ p) ++ m ++ s := by simp [List.append_assoc]
  | case5 c rest hne hnd ih =>
    intro m hm
    rw [findall, if_neg hne, if_neg hnd] at hm
    obtain ⟨⟨p, s, hdec⟩, hshape⟩ := ih m hm
    exact ⟨⟨c :: p, s, by simp [hdec]⟩, hshape⟩

/-- C4: every number `extract_score` scans occurs in the answer and matches
the number pattern; when the scan yields exactly one match the function
returns its value, and when it yields zero or several matches the function
raises the expected-exactly-one-number exception. -/
theorem c4_extract_score_unique_number (answer : String) :
    (∀ m ∈ findall answer.toList,
      (∃ p s, answer.toList = p ++ m ++ s) ∧ numShape m = true) ∧
    (∀ m, findall answer.toList = [m] →
      extract_score answer = Except.ok (parseTok m)) ∧
    ((findall answer.toList).length ≠ 1 →
      extract_score answer =
        Except.error "Error: Expected exactly one number in the answer") := by
  refine ⟨findall_mem_shape answer.toList, ?_, ?_⟩
  · intro m hm
    have hm2 : findall answer.data = [m] := hm
    rw [extract_score]
    simp [hm2]
  · intro hlen
    have hlen2 : (findall answer.data).length ≠ 1 := hlen
    rw [extract_score]
    rcases hf : findall answer.data with - | ⟨a, - | ⟨b, t⟩⟩
    · simp [hf]
    · rw [hf] at hlen2
      simp at hlen2
    · simp [hf]

/-! ## `check_check` -/

/-- C3 counterexample: a check naming the registered one-argument function
`is_eq`, carrying `metrics` but no `args` field and no `result`, is skipped
(`check_check` returns `False` because the effective argument list is empty
while `nargs` is 1), although none of the claim's skip conditions holds —
the check has no `args` list — so the claim predicts `True`. -/
theorem c3_claim_counterexample :
    ¬ ClaimC3 ⟨some (.str "is_eq"), true, none, false⟩ true := by
  intro h
  have hnotbad : ¬ ClaimC3Bad ⟨some (.str "is_eq"), true, none, false⟩ := by
    rintro (h1 | h1 | h1 | ⟨s, hs, hl⟩ | ⟨s, fd, l, hs, hl, hargs, hn⟩)
    · exact Option.noConfusion h1
    · simp at h1
    · simp at h1
    · obtain rfl : s = "is_eq" := by
        injection hs with h2
        injection h2 with h3
        exact h3.symm
      exact absurd hl (by decide)
    · exact Option.noConfusion hargs
  have h2 := h.2 hnotbad (Or.inl rfl)
  have h3 : check_check ⟨some (.str "is_eq"), true, none, false⟩ true = false := by
    decide
  rw [h2] at h3
  exact absurd h3 (by simp)

/-- C3 (amended): `check_check` returns `False` whenever the check lacks
`func` or `metrics`, has a non-string `func`, names an unregistered
function, or its effective `args` list (the empty list when the field is
absent) has a length different from the registered `nargs`; otherwise it
returns `True` when `config['all']` is set or the check has no `result`. -/
theorem c3_amended_check_check (c : CCheck) (allFlag : Bool) :
    (AmendedC3Bad c → check_check c allFlag = false) ∧
    (¬ AmendedC3Bad c → (allFlag = true ∨ c.hasResult = false) →
      check_check c allFlag = true) := by
  obtain ⟨f, hm, args, hr⟩ := c
  rcases f with - | fv
  · exact ⟨fun _ => rfl, fun hnbad _ => absurd (Or.inl rfl) hnbad⟩
  rcases fv with s | -
  · rcases hm with - | -
    · refine ⟨fun _ => ?_, fun hnbad _ => absurd (Or.inr (Or.inl rfl)) hnbad⟩
      simp [check_check]
    · rcases hl : lookupCheck s with - | fd
      · refine ⟨fun _ => ?_,
          fun hnbad _ => absurd (Or.inr (Or.inr (Or.inr (Or.inl ⟨s, rfl, hl⟩)))) hnbad⟩
        simp [check_check, hl]
      · by_cases hn : fd.nargs = (args.getD []).length
        · have hnotbad : ¬ AmendedC3Bad ⟨some (.str s), true, args, hr⟩ := by
            rintro (h1 | h1 | h1 | ⟨s2, hs2, hl2⟩ | ⟨s2, fd2, hs2, hl2, hn2⟩)
            · exact Option.noConfusion h1
            · simp at h1
            · simp at h1
            · obtain rfl : s2 = s := by
                injection hs2 with h2
                injection h2 with h3
                exact h3.symm
              rw [hl] at hl2
              exact Option.noConfusion hl2
            · obtain rfl : s2 = s := by
                injection hs2 with h2
                injection h2 with h3
                exact h3.symm
              rw [hl] at hl2
              injection hl2 with h4
              subst h4
              exact hn2 hn
          refine ⟨fun hbad => absurd hbad hnotbad, fun _ hres => ?_⟩
          rcases hres with h1 | h1
          · subst h1
            simp [check_check, hl, hn]
          · subst h1
            simp [check_check, hl, hn]
        · refine ⟨fun _ => ?_, fun hnbad _ =>
            absurd (Or.inr (Or.inr (Or.inr (Or.inr ⟨s, fd, rfl, hl, hn⟩)))) hnbad⟩
          simp [check_check, hl, hn]
  · rcases hm with - | -
    · refine ⟨fun _ => ?_, fun hnbad _ => absurd (Or.inr (Or.inl rfl)) hnbad⟩
      simp [check_check]
    · refine ⟨fun _ => ?_, fun hnbad _ => absurd (Or.inr (Or.inr (Or.inl rfl))) hnbad⟩
      simp [check_check]

/-! ## Purity of the registered checks -/

/-- C7: the registered check functions share no state: the verdict at each
position of a batch depends only on that position's application, so two runs
of the same application in any surrounding batches agree, and re-running an
application inside one batch gives the same verdict. -/
theorem c7_checks_pure_deterministic :
    (∀ (apps : List (String × String × List ArgV)) (i : Nat),
      (runChecks apps)[i]? = (apps[i]?).map fun a => applyCheckFn a.1 a.2.1 a.2.2) ∧
    (∀ (l1 l2 : List (String × String × List ArgV)) (i : Nat),
      l1[i]? = l2[i]? → (runChecks l1)[i]? = (runChecks l2)[i]?) ∧
    (∀ (apps : List (String × String × List ArgV)) (i j : Nat),
      apps[i]? = apps[j]? → (runChecks apps)[i]? = (runChecks apps)[j]?) := by
  have key : ∀ (apps : List (String × String × List ArgV)) (i : Nat),
      (runChecks apps)[i]? = (apps[i]?).map fun a => applyCheckFn a.1 a.2.1 a.2.2 := by
    intro apps i
    simp [runChecks]
  refine ⟨key, ?_, ?_⟩
  · intro l1 l2 i h
    rw [key, key, h]
  · intro apps i j h
    rw [key, key, h]

/-! ## The head of `ragability_check.run` -/

/-- C10: as soon as `usellm` is non-empty, `run` never reaches the
processing stage: with no raw `llm` list in the config it raises `KeyError`,
and with one — even one containing exactly the requested alias — it raises
the `LLM with alias ... not found` `ValueError`, because the search loop
assigns the misspelled `thellmname` and `llmname` stays empty. -/
theorem c10_usellm_always_fails (cfg : RunConfig) (hu : cfg.usellm ≠ "") :
    (∀ name, runHead cfg ≠ .proceed name) ∧
    (cfg.llm = none → 1 ≤ cfg.llms.length → runHead cfg = .errKeyLlm) ∧
    (∀ lst, cfg.llm = some lst → 1 ≤ cfg.llms.length →
      runHead cfg = .errAliasNotFound) := by
  by_cases hlen : cfg.llms.length < 1
  · refine ⟨fun name => ?_, fun _ h => by omega, fun lst _ h => by omega⟩
    simp [runHead, hlen]
  · rcases hllm : cfg.llm with - | lst
    · refine ⟨fun name => ?_, fun _ _ => ?_, fun lst h => Option.noConfusion h⟩ <;>
        simp [runHead, hlen, hu, hllm]
    · refine ⟨fun name => ?_, fun h => Option.noConfusion h, fun lst2 h _ => ?_⟩ <;>
        simp [runHead, hlen, hu, hllm]

/-- C10 witness: a configuration whose `llm` list contains exactly the
requested alias still ends in the not-found `ValueError`. -/
theorem c10_usellm_always_fails_witness :
    (∀ name, runHead ⟨[⟨"gpt"⟩], some [⟨"gpt"⟩], "gpt"⟩ ≠ .proceed name) ∧
    ((⟨[⟨"gpt"⟩], some [⟨"gpt"⟩], "gpt"⟩ : RunConfig).llm = none →
      1 ≤ ([⟨"gpt"⟩] : List LLMRec).length →
      runHead ⟨[⟨"gpt"⟩], some [⟨"gpt"⟩], "gpt"⟩ = .errKeyLlm) ∧
    (∀ lst, (⟨[⟨"gpt"⟩], some [⟨"gpt"⟩], "gpt"⟩ : RunConfig).llm = some lst →
      1 ≤ ([⟨"gpt"⟩] : List LLMRec).length →
      runHead ⟨[⟨"gpt"⟩], some [⟨"gpt"⟩], "gpt"⟩ = .errAliasNotFound) :=
  c10_usellm_always_fails ⟨[⟨"gpt"⟩], some [⟨"gpt"⟩], "gpt"⟩ (by decide)

/-! ## `read_input_file` validation -/

/-- The checks loop succeeds exactly on lists of dicts whose members pass
the per-check validation. -/
theorem checkChecksList_ok_iff (cs : List JVal) :
    checkChecksList cs = .ok () ↔
      ∀ c ∈ cs, ∃ cd, c = JVal.dict cd ∧ checkOneCheck cd = .ok () := by
  induction cs with
  | nil => simp [checkChecksList]
  | cons c rest ih =>
    cases c with
    | dict cd =>
      rcases hc : checkOneCheck cd with e | u
      · simp only [checkChecksList, hc]
        constructor
        · intro h
          exact absurd h (by simp)
        · intro h
          obtain ⟨cd2, hcd2, hok⟩ := h (JVal.dict cd) (List.mem_cons_self _ _)
          obtain rfl : cd2 = cd := by
            injection hcd2.symm
          rw [hc] at hok
          exact absurd hok (by simp)
      · obtain rfl : u = () := rfl
        simp only [checkChecksList, hc, ih]
        constructor
        · intro h d hd
          rcases List.mem_cons.mp hd with rfl | hd2
          · exact ⟨cd, rfl, hc⟩
          · exact h d hd2
        · intro h d hd
          exact h d (List.mem_cons_of_mem _ hd)
    | null =>
      constructor
      · intro h
        simp [checkChecksList] at h
      · intro h
        obtain ⟨cd, hcd, -⟩ := h JVal.null (List.mem_cons_self _ _)
        simp at hcd
    | str s =>
      constructor
      · intro h
        simp [checkChecksList] at h
      · intro h
        obtain ⟨cd, hcd, -⟩ := h (JVal.str s) (List.mem_cons_self _ _)
        simp at hcd
    | list xs =>
      constructor
      · intro h
        simp [checkChecksList] at h
      · intro h
        obtain ⟨cd, hcd, -⟩ := h (JVal.list xs) (List.mem_cons_self _ _)
        simp at hcd
    | other =>
      constructor
      · intro h
        simp [checkChecksList] at h
      · intro h
        obtain ⟨cd, hcd, -⟩ := h JVal.other (List.mem_cons_self _ _)
        simp at hcd

/-- A well-formed check dict passes the per-check validation. -/
theorem checkOneCheck_of_okB (cd : List (String × JVal)) (h : checkOkB cd = true) :
    checkOneCheck cd = .ok () := by
  rw [checkOkB, Bool.and_eq_true] at h
  obtain ⟨hq, hf⟩ := h
  have hfunc : checkFuncField cd = .ok () := by
    rw [checkFuncField]
    rcases hv : jget cd "func" with - | v
    · rfl
    · rw [hv] at hf
      cases v <;> simp_all
  rw [checkOneCheck]
  rcases hv : jget cd "query" with - | v
  · exact hfunc
  · rw [hv] at hq
    cases v <;> simp_all

/-- Early exits of `checkEntry`. -/
theorem checkEntry_no_qid (r : List (String × JVal)) (h : jget r "qid" = none) :
    checkEntry r = .error (.valueError "Missing qid field in entry") := by
  rw [checkEntry, h]
  rfl

theorem checkEntry_no_query (r : List (String × JVal)) (vq : JVal)
    (hq : jget r "qid" = some vq) (h : jget r "query" = none) :
    checkEntry r = .error (.valueError "Missing query field in entry") := by
  rw [checkEntry, hq, h]
  rfl

theorem checkEntry_bad_facts (r : List (String × JVal)) (vq vqu : JVal)
    (hq : jget r "qid" = some vq) (hqu : jget r "query" = some vqu)
    (h : factsOk (jget r "facts") = false) :
    checkEntry r =
      .error (.valueError "facts field must be a string or a list of strings") := by
  rw [checkEntry, hq, hqu, h]
  rfl

/-- When the query value is present but not a string, `checkEntry` raises
the query-type `ValueError`. -/
theorem checkEntry_query_nonstr (r : List (String × JVal)) (vq vqu : JVal)
    (hq : jget r "qid" = some vq) (hqu : jget r "query" = some vqu)
    (hfacts : factsOk (jget r "facts") = true)
    (hns : ∀ s, vqu ≠ JVal.str s) :
    checkEntry r = .error (.valueError "query field must be a string") := by
  rw [checkEntry, hq, hqu, hfacts]
  cases vqu with
  | str s => exact absurd rfl (hns s)
  | null => rfl
  | list xs => rfl
  | dict fs => rfl
  | other => rfl

/-- When the presence, facts and query-type tests pass, `checkEntry`
reduces to the checks dispatch. -/
theorem checkEntry_query_str (r : List (String × JVal)) (vq : JVal) (s : String)
    (hq : jget r "qid" = some vq) (hqu : jget r "query" = some (JVal.str s))
    (hfacts : factsOk (jget r "facts") = true) :
    checkEntry r =
      (match jget r "checks" with
       | none => .ok ()
       | some (.list cs) => checkChecksList cs
       | some _ => .error (.valueError "checks field must be a list")) := by
  rw [checkEntry, hq, hqu, hfacts]
  rfl

/-- The whole-file loop succeeds exactly when every record passes. -/
theorem checkAllEntries_ok_iff (data : List (List (String × JVal))) :
    checkAllEntries data = .ok () ↔ ∀ r ∈ data, checkEntry r = .ok () := by
  induction data with
  | nil => simp [checkAllEntries]
  | cons r rest ih =>
    rcases hr : checkEntry r with e | u
    · simp only [checkAllEntries, hr]
      constructor
      · intro h
        exact absurd h (by simp)
      · intro h
        have hmem := h r (List.mem_cons_self _ _)
        rw [hr] at hmem
        exact absurd hmem (by simp)
    · obtain rfl : u = () := rfl
      simp only [checkAllEntries, hr, ih]
      constructor
      · intro h r2 hr2
        rcases List.mem_cons.mp hr2 with rfl | hr3
        · exact hr
        · exact h r2 hr3
      · intro h r2 hr2
        exact h r2 (List.mem_cons_of_mem _ hr2)

/-- C8 counterexample: the record `{qid: "1", query: "q", facts: null}` has
a `facts` field that is neither a string nor a list, yet `read_input_file`
accepts it and returns the full list — `entry.get('facts')` yields `None`
for an explicit JSON null exactly as for a missing field. -/
theorem c8_claim_counterexample :
    ClaimC8Bad c8rec ∧ read_input_file [c8rec] = .ok [c8rec] := by
  constructor
  · exact Or.inr (Or.inr (Or.inr (Or.inl ⟨JVal.null, rfl, rfl⟩)))
  · rfl

/-- C8 (amended): `read_input_file` raises `ValueError` for every record
lacking `qid` or `query`, with a non-string `query`, with a non-null
`facts` value that is neither a string nor a list, or with a non-list
`checks` value; a `checks` list containing a non-dict member raises an
exception; an explicit null `facts` is treated like a missing `facts`;
records that merely lack `facts` or `checks` pass validation, and the full
record list is returned exactly when every record passes. -/
theorem c8_amended_read_input_file :
    (∀ r : List (String × JVal),
      ((jget r "qid" = none ∨ jget r "query" = none ∨
        (∃ v, jget r "query" = some v ∧ ∀ s, v ≠ JVal.str s) ∨
        (∃ v, jget r "facts" = some v ∧ v ≠ JVal.null ∧ isStrOrList v = false) ∨
        (∃ v, jget r "checks" = some v ∧ ∀ cs, v ≠ JVal.list cs)) →
        ∃ msg, checkEntry r = .error (.valueError msg)) ∧
      ((∃ cs, jget r "checks" = some (JVal.list cs) ∧
          ∃ c ∈ cs, ∀ cd, c ≠ JVal.dict cd) →
        ∃ e, checkEntry r = .error e) ∧
      (okRecord r = true → checkEntry r = .ok ())) ∧
    (∀ data : List (List (String × JVal)),
      (read_input_file data = .ok data ↔ ∀ r ∈ data, checkEntry r = .ok ()) ∧
      ((∃ r ∈ data, checkEntry r ≠ .ok ()) →
        ∃ e, read_input_file data = .error e)) := by
  constructor
  · intro r
    refine ⟨?_, ?_, ?_⟩
    · intro hbad
      rcases hqid : jget r "qid" with - | vq
      · exact ⟨_, checkEntry_no_qid r hqid⟩
      rcases hquery : jget r "query" with - | vqu
      · exact ⟨_, checkEntry_no_query r vq hqid hquery⟩
      rcases hfacts : factsOk (jget r "facts") with - | -
      · exact ⟨_, checkEntry_bad_facts r vq vqu hqid hquery hfacts⟩
      rcases hbad with h | h | ⟨v, hv, hns⟩ | ⟨v, hv, hnn, hnsl⟩ | ⟨v, hv, hnl⟩
      · rw [hqid] at h
        exact Option.noConfusion h
      · rw [hquery] at h
        exact Option.noConfusion h
      · exact ⟨_, checkEntry_query_nonstr r vq v hqid hv hfacts hns⟩
      · rw [hv] at hfacts
        cases v with
        | null => exact absurd rfl hnn
        | str s => simp [isStrOrList] at hnsl
        | list xs => simp [isStrOrList] at hnsl
        | dict fs => simp [factsOk] at hfacts
        | other => simp [factsOk] at hfacts
      · cases vqu with
        | str s =>
          refine ⟨"checks field must be a list", ?_⟩
          rw [checkEntry_query_str r vq s hqid hquery hfacts, hv]
          cases v with
          | list cs => exact absurd rfl (hnl cs)
          | null => rfl
          | str s2 => rfl
          | dict fs => rfl
          | other => rfl
        | null =>
          exact ⟨_, checkEntry_query_nonstr r vq _ hqid hquery hfacts
            (fun s h => JVal.noConfusion h)⟩
        | list xs =>
          exact ⟨_, checkEntry_query_nonstr r vq _ hqid hquery hfacts
            (fun s h => JVal.noConfusion h)⟩
        | dict fs =>
          exact ⟨_, checkEntry_query_nonstr r vq _ hqid hquery hfacts
            (fun s h => JVal.noConfusion h)⟩
        | other =>
          exact ⟨_, checkEntry_query_nonstr r vq _ hqid hquery hfacts
            (fun s h => JVal.noConfusion h)⟩
    · rintro ⟨cs, hcs, c, hc, hnd⟩
      rcases he : checkEntry r with e | u
      · exact ⟨e, rfl⟩
      obtain rfl : u = () := rfl
      exfalso
      rcases hqid : jget r "qid" with - | vq
      · rw [checkEntry_no_qid r hqid] at he
        exact Except.noConfusion he
      rcases hquery : jget r "query" with - | vqu
      · rw [checkEntry_no_query r vq hqid hquery] at he
        exact Except.noConfusion he
      rcases hfacts : factsOk (jget r "facts") with - | -
      · rw [checkEntry_bad_facts r vq vqu hqid hquery hfacts] at he
        exact Except.noConfusion he
      cases vqu with
      | str s =>
        rw [checkEntry_query_str r vq s hqid hquery hfacts, hcs] at he
        obtain ⟨cd, hcd, -⟩ := (checkChecksList_ok_iff cs).mp he c hc
        exact hnd cd hcd
      | null =>
        rw [checkEntry_query_nonstr r vq _ hqid hquery hfacts
          (fun s h => JVal.noConfusion h)] at he
        exact Except.noConfusion he
      | list xs =>
        rw [checkEntry_query_nonstr r vq _ hqid hquery hfacts
          (fun s h => JVal.noConfusion h)] at he
        exact Except.noConfusion he
      | dict fs =>
        rw [checkEntry_query_nonstr r vq _ hqid hquery hfacts
          (fun s h => JVal.noConfusion h)] at he
        exact Except.noConfusion he
      | other =>
        rw [checkEntry_query_nonstr r vq _ hqid hquery hfacts
          (fun s h => JVal.noConfusion h)] at he
        exact Except.noConfusion he
    · intro hok
      rw [okRecord] at hok
      simp only [Bool.and_eq_true] at hok
      obtain ⟨⟨⟨hqid, hquery⟩, hfacts⟩, hchecks⟩ := hok
      rw [Option.isSome_iff_ne_none] at hqid
      rcases hq : jget r "qid" with - | vq
      · exact absurd hq hqid
      rcases hqu : jget r "query" with - | vqu
      · rw [hqu] at hquery
        simp at hquery
      rw [hqu] at hquery
      cases vqu with
      | str s =>
        rw [checkEntry_query_str r vq s hq hqu hfacts]
        rcases hc : jget r "checks" with - | vc
        · rfl
        rw [hc] at hchecks
        cases vc with
        | list cs =>
          simp only
          refine (checkChecksList_ok_iff cs).mpr ?_
          intro c hcmem
          simp only at hchecks
          have hcb := List.all_eq_true.mp hchecks c hcmem
          cases c with
          | dict cd => exact ⟨cd, rfl, checkOneCheck_of_okB cd (by simpa using hcb)⟩
          | null => simp at hcb
          | str s2 => simp at hcb
          | list xs => simp at hcb
          | other => simp at hcb
        | null => simp at hchecks
        | str s2 => simp at hchecks
        | dict fs => simp at hchecks
        | other => simp at hchecks
      | null => simp at hquery
      | list xs => simp at hquery
      | dict fs => simp at hquery
      | other => simp at hquery
  · intro data
    constructor
    · rw [read_input_file]
      rcases hall : checkAllEntries data with e | u
      · constructor
        · intro h
          exact absurd h (by simp)
        · intro h
          rw [(checkAllEntries_ok_iff data).mpr h] at hall
          exact Except.noConfusion hall
      · obtain rfl : u = () := rfl
        constructor
        · intro _
          exact (checkAllEntries_ok_iff data).mp hall
        · intro _
          rfl
    · rintro ⟨r, hr, hne⟩
      rw [read_input_file]
      rcases hall : checkAllEntries data with e | u
      · exact ⟨e, rfl⟩
      · exact absurd ((checkAllEntries_ok_iff data).mp hall r hr) hne

/-! ## The evaluation pipeline: loop invariants -/

theorem processCheck_crashed_absorb (q : QueryRec) (st : EvalOut) (c : CheckRow)
    (h : st.crashed = true) : processCheck q st c = st := by
  rw [processCheck, if_pos h]

theorem foldl_processCheck_absorb (q : QueryRec) (cs : List CheckRow) (st : EvalOut)
    (h : st.crashed = true) : cs.foldl (processCheck q) st = st := by
  induction cs with
  | nil => rfl
  | cons c rest ih =>
    rw [List.foldl_cons, processCheck_crashed_absorb q st c h]
    exact ih

theorem processQuery_crashed_absorb (st : EvalOut) (q : QueryRec)
    (h : st.crashed = true) : processQuery st q = st := by
  rw [processQuery, if_pos h]

theorem foldl_processQuery_absorb (qs : List QueryRec) (st : EvalOut)
    (h : st.crashed = true) : qs.foldl processQuery st = st := by
  induction qs with
  | nil => rfl
  | cons q rest ih =>
    rw [List.foldl_cons, processQuery_crashed_absorb st q h]
    exact ih

/-- One step of the check loop never enters the dead `if not funcdef`
guard. -/
theorem processCheck_guardHit (q : QueryRec) (st : EvalOut) (c : CheckRow) :
    (processCheck q st c).guardHit = st.guardHit := by
  rw [processCheck]
  split
  · rfl
  · split
    · rfl
    · split
      · rfl
      · rename_i fd heq
        simp [heq]

theorem foldl_processCheck_guardHit (q : QueryRec) (cs : List CheckRow) (st : EvalOut) :
    (cs.foldl (processCheck q) st).guardHit = st.guardHit := by
  induction cs generalizing st with
  | nil => rfl
  | cons c rest ih =>
    rw [List.foldl_cons, ih, processCheck_guardHit]

theorem processQuery_guardHit (st : EvalOut) (q : QueryRec) :
    (processQuery st q).guardHit = st.guardHit := by
  rw [processQuery]
  split
  · rfl
  · split
    · rfl
    · split
      · rfl
      · exact foldl_processCheck_guardHit q q.checks st

theorem foldl_processQuery_guardHit (qs : List QueryRec) (st : EvalOut) :
    (qs.foldl processQuery st).guardHit = st.guardHit := by
  induction qs generalizing st with
  | nil => rfl
  | cons q rest ih =>
    rw [List.foldl_cons, ih, processQuery_guardHit]

/-- A check with an empty error field and an unregistered function crashes
the check loop. -/
theorem foldl_processCheck_crash (q : QueryRec) (cs : List CheckRow) (st : EvalOut)
    (h : ∃ c ∈ cs, c.error = "" ∧ lookupCheck c.func = none) :
    (cs.foldl (processCheck q) st).crashed = true := by
  induction cs generalizing st with
  | nil =>
    obtain ⟨c, hc, -⟩ := h
    simp at hc
  | cons c rest ih =>
    obtain ⟨c2, hc2, herr, hlook⟩ := h
    rw [List.foldl_cons]
    rcases List.mem_cons.mp hc2 with rfl | hmem
    · by_cases hcr : st.crashed = true
      · rw [processCheck_crashed_absorb q st c2 hcr, foldl_processCheck_absorb q rest st hcr]
        exact hcr
      · have hst2 : (processCheck q st c2).crashed = true := by
          simp [processCheck, hcr, herr, hlook]
        rw [foldl_processCheck_absorb q rest _ hst2]
        exact hst2
    · exact ih _ ⟨c2, hmem, herr, hlook⟩

/-- A query with an empty error field containing such a check crashes the
whole collection loop. -/
theorem foldl_processQuery_crash (qs : List QueryRec) (st : EvalOut)
    (h : ∃ q ∈ qs, q.error = "" ∧
      ∃ c ∈ q.checks, c.error = "" ∧ lookupCheck c.func = none) :
    (qs.foldl processQuery st).crashed = true := by
  induction qs generalizing st with
  | nil =>
    obtain ⟨q, hq, -⟩ := h
    simp at hq
  | cons q rest ih =>
    obtain ⟨q2, hq2, herr, hcheck⟩ := h
    rw [List.foldl_cons]
    rcases List.mem_cons.mp hq2 with rfl | hmem
    · by_cases hcr : st.crashed = true
      · rw [processQuery_crashed_absorb st q2 hcr, foldl_processQuery_absorb rest st hcr]
        exact hcr
      · by_cases hllm : q2.llm = ""
        · have hst2 : (processQuery st q2).crashed = true := by
            simp [processQuery, hcr, hllm]
          rw [foldl_processQuery_absorb rest _ hst2]
          exact hst2
        · have hst2 : (processQuery st q2).crashed = true := by
            rw [processQuery, if_neg (by simp [hcr]), if_neg hllm,
              if_neg (by simp [herr])]
            exact foldl_processCheck_crash q2 q2.checks st hcheck
          rw [foldl_processQuery_absorb rest _ hst2]
          exact hst2
    · exact ih _ ⟨q2, hmem, herr, hcheck⟩

/-- C9: on no input does `run` take the `Check function not found` branch
(`guardHit` is always false — the guard is dead code because
`funcdef["kind"]` is evaluated first), and whenever the collection loop
finishes without the crash every error-free check of every error-free query
had a registered function: an unregistered function always crashes the run
instead of being counted as a check error. -/
theorem c9_unknown_check_function_crashes (qs : List QueryRec) :
    (evalCollect qs).guardHit = false ∧
    ((evalCollect qs).crashed = false →
      ∀ q ∈ qs, q.error = "" → ∀ c ∈ q.checks, c.error = "" →
        (lookupCheck c.func).isSome = true) := by
  constructor
  · exact foldl_processQuery_guardHit qs ⟨[], 0, 0, false, false⟩
  · intro hok q hq herr c hc hcerr
    by_cases hnone : lookupCheck c.func = none
    · have := foldl_processQuery_crash qs ⟨[], 0, 0, false, false⟩
        ⟨q, hq, herr, c, hc, hcerr, hnone⟩
      rw [evalCollect] at hok
      rw [this] at hok
      exact absurd hok (by simp)
    · rwa [Option.isSome_iff_ne_none]

/-- The check loop extends the collected entries by exactly the entries the
checks describe, as long as nothing crashes. -/
theorem foldl_processCheck_entries (q : QueryRec) (cs : List CheckRow) (st : EvalOut)
    (h : (cs.foldl (processCheck q) st).crashed = false) (hst : st.crashed = false) :
    (cs.foldl (processCheck q) st).entries = st.entries ++ cs.flatMap (checkEntries q) := by
  induction cs generalizing st with
  | nil => simp
  | cons c rest ih =>
    rw [List.foldl_cons] at h ⊢
    have hst2 : (processCheck q st c).crashed = false := by
      by_cases hcr : (processCheck q st c).crashed = true
      · rw [foldl_processCheck_absorb q rest _ hcr] at h
        rw [h] at hcr
        exact absurd hcr (by simp)
      · simpa using hcr
    by_cases herr : c.error = ""
    · rcases hlook : lookupCheck c.func with - | fd
      · exfalso
        have hcr : (processCheck q st c).crashed = true := by
          simp [processCheck, hst, herr, hlook]
        rw [hcr] at hst2
        exact absurd hst2 (by simp)
      · have hval : processCheck q st c =
            { st with entries := st.entries ++ rowsFor q fd c } := by
          simp [processCheck, hst, herr, hlook]
        rw [hval] at h ⊢
        rw [ih _ h (by simpa using hst)]
        simp [checkEntries, herr, hlook, List.append_assoc]
    · have hval : processCheck q st c = { st with ncErrors := st.ncErrors + 1 } := by
        simp [processCheck, hst, herr]
      rw [hval] at h ⊢
      rw [ih _ h (by simpa using hst)]
      simp [checkEntries, herr]

/-- The query loop extends the collected entries by exactly the entries the
queries describe, as long as nothing crashes. -/
theorem foldl_processQuery_entries (qs : List QueryRec) (st : EvalOut)
    (h : (qs.foldl processQuery st).crashed = false) (hst : st.crashed = false) :
    (qs.foldl processQuery st).entries = st.entries ++ qs.flatMap queryEntries := by
  induction qs generalizing st with
  | nil => simp
  | cons q rest ih =>
    rw [List.foldl_cons] at h ⊢
    have hst2 : (processQuery st q).crashed = false := by
      by_cases hcr : (processQuery st q).crashed = true
      · rw [foldl_processQuery_absorb rest _ hcr] at h
        rw [h] at hcr
        exact absurd hcr (by simp)
      · simpa using hcr
    by_cases hllm : q.llm = ""
    · exfalso
      have hcr : (processQuery st q).crashed = true := by
        simp [processQuery, hst, hllm]
      rw [hcr] at hst2
      exact absurd hst2 (by simp)
    · by_cases herr : q.error = ""
      · have hval : processQuery st q = q.checks.foldl (processCheck q) st := by
          rw [processQuery, if_neg (by simp [hst]), if_neg hllm, if_neg (by simp [herr])]
        rw [hval] at h hst2 ⊢
        rw [ih _ h hst2, foldl_processCheck_entries q q.checks st hst2 hst]
        simp [queryEntries, herr, List.append_assoc]
      · have hval : processQuery st q = { st with nErrors := st.nErrors + 1 } := by
          rw [processQuery, if_neg (by simp [hst]), if_neg hllm, if_pos herr]
        rw [hval] at h ⊢
        rw [ih _ h (by simpa using hst)]
        simp [queryEntries, herr]

/-- When the collection loop does not crash, the collected entries are
exactly the directly described ones. -/
theorem evalCollect_entries (qs : List QueryRec)
    (h : (evalCollect qs).crashed = false) :
    (evalCollect qs).entries = specEntries qs := by
  have h2 := foldl_processQuery_entries qs ⟨[], 0, 0, false, false⟩ h rfl
  simpa [evalCollect, specEntries] using h2

/-! ## Aggregation helpers -/

theorem mem_keysOf {entries : List Entry} {e : Entry} (h : e ∈ entries) :
    (e.kind, e.metric) ∈ keysOf entries :=
  List.mem_dedup.mpr (List.mem_map.mpr ⟨e, h, rfl⟩)

theorem metricDF_key {entries : List Entry} {kind metric : String} {r : Row}
    (h : r ∈ metricDF entries kind metric) :
    (kind, metric) ∈ keysOf entries := by
  rw [metricDF] at h
  obtain ⟨e, hef, rfl⟩ := List.mem_map.mp h
  obtain ⟨he, hcond⟩ := List.mem_filter.mp hef
  rw [Bool.and_eq_true, beq_iff_eq, beq_iff_eq] at hcond
  obtain ⟨h1, h2⟩ := hcond
  have h3 := mem_keysOf he
  rw [h1, h2] at h3
  exact h3

theorem mem_llmsOf {rows : List Row} {r : Row} (h : r ∈ rows) :
    r.llm ∈ llmsOf rows :=
  List.mem_dedup.mpr (List.mem_map.mpr ⟨r, h, rfl⟩)

theorem llmsOf_mem {rows : List Row} {llm : String} (h : llm ∈ llmsOf rows) :
    ∃ r ∈ rows, r.llm = llm := by
  rw [llmsOf] at h
  obtain ⟨r, hr, hl⟩ := List.mem_map.mp (List.mem_dedup.mp h)
  exact ⟨r, hr, hl⟩

theorem llmGroup_ne_nil {rows : List Row} {llm : String}
    (h : llmGroup rows llm ≠ []) : ∃ r ∈ rows, r.llm = llm := by
  rcases hg : llmGroup rows llm with - | ⟨r, rest⟩
  · exact absurd hg h
  · have hr : r ∈ llmGroup rows llm := by
      rw [hg]
      exact List.mem_cons_self _ _
    obtain ⟨hmem, hcond⟩ := List.mem_filter.mp hr
    exact ⟨r, hmem, by simpa using hcond⟩

theorem beq_swap (a b : String) : (a == b) = (b == a) := by
  by_cases h : a = b
  · subst h
    rfl
  · rw [beq_eq_false_iff_ne.mpr h, beq_eq_false_iff_ne.mpr (Ne.symm h)]

/-- `sklearn` accuracy on the target/result columns counts the rows whose
result equals the registered target. -/
theorem accuracy_score_eq (rows : List Row) :
    accuracy_score (pairsOf rows) =
      ((rows.countP fun r => r.result == r.target : ℚ)) / (rows.length : ℚ) := by
  have h1 : (pairsOf rows).countP (fun p => p.1 == p.2) =
      rows.countP fun r => r.result == r.target := by
    rw [pairsOf, List.countP_map]
    refine List.countP_congr ?_
    intro r _
    simp only [Function.comp]
    rw [beq_swap r.target r.result]
  rw [accuracy_score, h1, pairsOf, List.length_map]

theorem statsForKey_mem (entries : List Entry) (kind metric llm : String)
    (h : llm ∈ llmsOf (metricDF entries kind metric)) :
    (⟨"all", llm, metric ++ ":accuracy",
      accuracy_score (pairsOf (llmGroup (metricDF entries kind metric) llm))⟩ : StatRow) ∈
      statsForKey entries kind metric ∧
    (⟨"all", llm, metric ++ ":n",
      ((llmGroup (metricDF entries kind metric) llm).length : ℚ)⟩ : StatRow) ∈
      statsForKey entries kind metric := by
  constructor <;>
  · rw [statsForKey]
    refine List.mem_flatMap.mpr ⟨llm, h, ?_⟩
    simp

theorem dfrowsAll_mem {entries : List Entry} {kind metric : String} {x : StatRow}
    (hk : (kind, metric) ∈ keysOf entries)
    (hx : x ∈ statsForKey entries kind metric) :
    x ∈ dfrowsAll entries :=
  List.mem_flatMap.mpr ⟨(kind, metric), hk, hx⟩

/-- The size of one llm group of one metric dataframe, as a count over the
underlying entries. -/
theorem llmGroup_metricDF_length (entries : List Entry) (kind metric llm : String) :
    (llmGroup (metricDF entries kind metric) llm).length =
      entries.countP fun e => (e.kind == kind && e.metric == metric) && e.row.llm == llm := by
  rw [llmGroup, metricDF, List.filter_map, List.length_map, List.filter_filter,
    ← List.countP_eq_length_filter]
  refine List.countP_congr ?_
  intro e _
  simp only [Function.comp, Bool.and_eq_true, beq_iff_eq]
  tauto

/-- The contribution of one check to one llm group of one metric dataframe:
one row per occurrence of the metric name, when the check is error-free, its
function registered with the right kind, and the query owned by the llm. -/
theorem checkEntries_countP (q : QueryRec) (c : CheckRow) (kind metric llm : String) :
    (checkEntries q c).countP
      (fun e => (e.kind == kind && e.metric == metric) && e.row.llm == llm) =
    (if q.llm == llm then
      (if c.error = "" then
        match lookupCheck c.func with
        | some fd => if fd.kind == kind then c.metrics.count metric else 0
        | none => 0
       else 0)
     else 0) := by
  by_cases herr : c.error = ""
  · rcases hlook : lookupCheck c.func with - | fd
    · simp [checkEntries, herr, hlook]
    · have hred : checkEntries q c = rowsFor q fd c := by
        simp [checkEntries, herr, hlook]
      rw [hred, rowsFor, List.countP_map]
      simp only [hlook]
      by_cases hllm : (q.llm == llm) = true
      · by_cases hkind : (fd.kind == kind) = true
        · rw [if_pos hllm, if_pos herr, if_pos hkind, List.count]
          refine List.countP_congr ?_
          intro m _
          simp [Function.comp, hllm, hkind]
        · rw [if_pos hllm, if_pos herr, if_neg hkind]
          rw [show (fun e : Entry =>
              (e.kind == kind && e.metric == metric) && e.row.llm == llm) ∘
              (fun metric' => (⟨fd.kind, metric',
                ⟨fd.target, c.result, q.qid, q.tags, q.llm, c.func, fd.kind⟩⟩ : Entry)) =
              fun _ => false from ?_]
          · exact congrFun List.countP_false c.metrics
          · funext m
            simp [Function.comp, hkind]
      · rw [if_neg hllm]
        rw [show (fun e : Entry =>
            (e.kind == kind && e.metric == metric) && e.row.llm == llm) ∘
            (fun metric' => (⟨fd.kind, metric',
              ⟨fd.target, c.result, q.qid, q.tags, q.llm, c.func, fd.kind⟩⟩ : Entry)) =
            fun _ => false from ?_]
        · exact congrFun List.countP_false c.metrics
        · funext m
          simp [Function.comp, hllm]
  · simp [checkEntries, herr]

/-- The contribution of one query to one llm group of one metric
dataframe. -/
theorem queryEntries_countP (q : QueryRec) (kind metric llm : String) :
    (queryEntries q).countP
      (fun e => (e.kind == kind && e.metric == metric) && e.row.llm == llm) =
    (if q.error = "" && q.llm == llm then
      (q.checks.map fun c =>
        if c.error = "" then
          match lookupCheck c.func with
          | some fd => if fd.kind == kind then c.metrics.count metric else 0
          | none => 0
        else 0).sum
     else 0) := by
  by_cases herr : q.error = ""
  · rw [queryEntries, if_pos herr, List.flatMap, List.countP_flatten, List.map_map]
    by_cases hllm : (q.llm == llm) = true
    · rw [if_pos (by simp [herr, hllm])]
      refine congrArg List.sum (List.map_congr_left ?_)
      intro c _
      simp only [Function.comp]
      rw [checkEntries_countP q c kind metric llm, if_pos hllm]
    · rw [if_neg (by simp [hllm])]
      have hz : (q.checks.map
          ((List.countP fun e : Entry =>
            (e.kind == kind && e.metric == metric) && e.row.llm == llm) ∘
            checkEntries q)) = q.checks.map fun _ => (0 : Nat) := by
        refine List.map_congr_left ?_
        intro c _
        simp only [Function.comp]
        rw [checkEntries_countP q c kind metric llm, if_neg hllm]
      rw [hz]
      simp
  · rw [queryEntries, if_neg herr, if_neg (by simp [herr])]
    rfl

/-- The directly described entries, counted per query. -/
theorem specEntries_countP (qs : List QueryRec) (kind metric llm : String) :
    (specEntries qs).countP
      (fun e => (e.kind == kind && e.metric == metric) && e.row.llm == llm) =
    specCount qs kind metric llm := by
  induction qs with
  | nil => rfl
  | cons q rest ih =>
    have h1 : specEntries (q :: rest) = queryEntries q ++ specEntries rest := by
      rw [specEntries, specEntries, List.flatMap_cons]
    rw [h1, List.countP_append, queryEntries_countP q kind metric llm, ih]
    conv_rhs => rw [specCount, List.map_cons, List.sum_cons]
    congr 1

/-- The size of one llm group of one metric dataframe equals the claim-side
row count. -/
theorem metricDF_spec_count (qs : List QueryRec) (kind metric llm : String) :
    (llmGroup (metricDF (specEntries qs) kind metric) llm).length =
      specCount qs kind metric llm := by
  rw [llmGroup_metricDF_length, specEntries_countP]

/-! ## The `key.split(":")` unpack -/

theorem splitColon_ne_nil (cs : List Char) : splitColon cs ≠ [] := by
  cases cs with
  | nil => simp [splitColon]
  | cons c rest =>
    rcases h : splitColon rest with - | ⟨g, gs⟩
    · simp [splitColon, h]
    · by_cases hc : c = ':' <;> simp [splitColon, h, hc]

theorem splitColon_no_colon (cs : List Char) (h : ':' ∉ cs) :
    splitColon cs = [cs] := by
  induction cs with
  | nil => rfl
  | cons c rest ih =>
    have hc : c ≠ ':' := by
      intro hh
      exact h (by rw [hh]; exact List.mem_cons_self _ _)
    have hr : ':' ∉ rest := fun hh => h (List.mem_cons_of_mem _ hh)
    simp [splitColon, ih hr, hc]

theorem splitColon_append (a ys : List Char) (h : ':' ∉ a) :
    splitColon (a ++ ':' :: ys) = a :: splitColon ys := by
  induction a with
  | nil =>
    rcases hy : splitColon ys with - | ⟨g, gs⟩
    · exact absurd hy (splitColon_ne_nil ys)
    · simp [splitColon, hy]
  | cons c rest ih =>
    have hc : c ≠ ':' := by
      intro hh
      exact h (by rw [hh]; exact List.mem_cons_self _ _)
    have hr : ':' ∉ rest := fun hh => h (List.mem_cons_of_mem _ hh)
    have ihh := ih hr
    rcases hy : splitColon (rest ++ ':' :: ys) with - | ⟨g, gs⟩
    · exact absurd hy (splitColon_ne_nil _)
    · rw [hy] at ihh
      obtain ⟨h1, h2⟩ := List.cons.inj ihh
      subst h1
      simp [splitColon, hy, hc, h2]

theorem splitColon_length (cs : List Char) :
    (splitColon cs).length = cs.count ':' + 1 := by
  induction cs with
  | nil => simp [splitColon]
  | cons c rest ih =>
    rcases hy : splitColon rest with - | ⟨g, gs⟩
    · exact absurd hy (splitColon_ne_nil rest)
    · rw [hy] at ih
      simp only [List.length_cons] at ih
      by_cases hc : c = ':'
      · subst hc
        simp [splitColon, hy, List.count_cons_self]
        omega
      · simp [splitColon, hy, hc, List.count_cons_of_ne (Ne.symm hc)]
        omega

/-- When the unpack of a stored key succeeds, the two parts are the stored
kind and metric. -/
theorem unpackKey_keyString (a b : String) (p : String × String)
    (h : unpackKey (keyString a b) = some p) : p = (a, b) := by
  have hdata : (keyString a b).toList = a.toList ++ ':' :: b.toList := by
    have h0 : (keyString a b).toList = (a.toList ++ [':']) ++ b.toList := rfl
    rw [h0, List.append_assoc]
    rfl
  rw [unpackKey, hdata] at h
  by_cases ha : ':' ∈ a.toList
  · exfalso
    have hlen := splitColon_length (a.toList ++ ':' :: b.toList)
    rw [List.count_append, List.count_cons_self] at hlen
    have hca : a.toList.count ':' ≠ 0 := fun h0 => (List.count_eq_zero.mp h0) ha
    rcases hs : splitColon (a.toList ++ ':' :: b.toList) with - | ⟨k, - | ⟨m, - | ⟨x, xs⟩⟩⟩
    · exact splitColon_ne_nil _ hs
    · rw [hs] at hlen
      simp only [List.length_cons, List.length_nil] at hlen
      omega
    · rw [hs] at hlen
      simp only [List.length_cons, List.length_nil] at hlen
      omega
    · rw [hs] at h
      exact Option.noConfusion h
  · by_cases hb : ':' ∈ b.toList
    · exfalso
      have hlen := splitColon_length (a.toList ++ ':' :: b.toList)
      rw [List.count_append, List.count_cons_self] at hlen
      have hcb : b.toList.count ':' ≠ 0 := fun h0 => (List.count_eq_zero.mp h0) hb
      rcases hs : splitColon (a.toList ++ ':' :: b.toList) with - | ⟨k, - | ⟨m, - | ⟨x, xs⟩⟩⟩
      · exact splitColon_ne_nil _ hs
      · rw [hs] at hlen
        simp only [List.length_cons, List.length_nil] at hlen
        omega
      · rw [hs] at hlen
        simp only [List.length_cons, List.length_nil] at hlen
        omega
      · rw [hs] at h
        exact Option.noConfusion h
    · rw [splitColon_append a.toList b.toList ha, splitColon_no_colon b.toList hb] at h
      exact (Option.some.inj h).symm

/-- A successful pass of the per-key report loop yields exactly the
per-(kind, metric) statistics. -/
theorem dfrowsAllGo_ok (entries : List Entry) (keys : List (String × String))
    (stats : List StatRow) (h : dfrowsAllGo entries keys = .ok stats) :
    stats = keys.flatMap fun km => statsForKey entries km.1 km.2 := by
  induction keys generalizing stats with
  | nil =>
    simp only [dfrowsAllGo] at h
    cases h
    rfl
  | cons km rest ih =>
    simp only [dfrowsAllGo] at h
    rcases hu : unpackKey (keyString km.1 km.2) with - | p
    · rw [hu] at h
      exact Except.noConfusion h
    · rw [hu] at h
      rcases hr : dfrowsAllGo entries rest with e | tail
      · rw [hr] at h
        exact Except.noConfusion h
      · rw [hr] at h
        have hp := unpackKey_keyString km.1 km.2 p hu
        subst hp
        rw [← Except.ok.inj h, ih tail hr]
        rfl

/-- If the two-pass "all" report does not crash, its result is dfrowsAll. -/
theorem dfrowsAllE_ok (entries : List Entry) (stats : List StatRow)
    (h : dfrowsAllE entries = .ok stats) : stats = dfrowsAll entries :=
  dfrowsAllGo_ok entries (keysOf entries) stats h

/-- A successful pass of the per-key per-tag report loop yields exactly
the per-(kind, metric) tag statistics. -/
theorem byTagStatsGo_ok (entries : List Entry) (tagname : String)
    (keys : List (String × String)) (stats : List StatRow)
    (h : byTagStatsGo entries tagname keys = .ok stats) :
    stats = keys.flatMap fun km => byTagStatsForKey entries tagname km km.2 := by
  induction keys generalizing stats with
  | nil =>
    simp only [byTagStatsGo] at h
    cases h
    rfl
  | cons km rest ih =>
    simp only [byTagStatsGo] at h
    rcases hu : unpackKey (keyString km.1 km.2) with - | p
    · rw [hu] at h
      exact Except.noConfusion h
    · rw [hu] at h
      rcases hr : byTagStatsGo entries tagname rest with e | tail
      · rw [hr] at h
        exact Except.noConfusion h
      · rw [hr] at h
        have hp := unpackKey_keyString km.1 km.2 p hu
        subst hp
        rw [← Except.ok.inj h, ih tail hr]
        rfl

/-- If the per-tag report pass does not crash, its result is byTagStats. -/
theorem byTagStatsE_ok (entries : List Entry) (tagname : String)
    (stats : List StatRow) (h : byTagStatsE entries tagname = .ok stats) :
    stats = byTagStats entries tagname :=
  byTagStatsGo_ok entries tagname (keysOf entries) stats h

/-- C1 counterexample: on an input whose two checks share the metric name
`m` but use functions of different kinds, the report pass completes without
raising (every stored `kind:metric` key splits back into exactly two parts,
so `kind, metric = key.split(":")` succeeds) yet never emits an
`m:accuracy` statistic equal to the fraction of metric `m` rows whose result
equals the target (one half here): the statistics are computed per
`kind:metric` dataframe, so the two emitted `m:accuracy` values are 1 and 0.
-/
theorem c1_claim_counterexample :
    dfrowsAllE (evalCollect c1badqs).entries =
      .ok (dfrowsAll (evalCollect c1badqs).entries) ∧
    (((((evalCollect c1badqs).entries.filter fun e => e.metric == "m").map
        Entry.row).countP fun r => r.result == r.target : ℚ)) /
      ((((evalCollect c1badqs).entries.filter fun e => e.metric == "m").map
        Entry.row).length : ℚ) = 1 / 2 ∧
    (∃ s ∈ dfrowsAll (evalCollect c1badqs).entries,
      s.group = "all" ∧ s.llm = "L" ∧ s.metric = "m" ++ ":accuracy") ∧
    (∀ s ∈ dfrowsAll (evalCollect c1badqs).entries,
      s.metric = "m" ++ ":accuracy" → s.value ≠ 1 / 2) := by
  have h1 : ((evalCollect c1badqs).entries.filter fun e => e.metric == "m").map
      Entry.row =
      [⟨"1", "1", "q1", "", "L", "is_eq", "binary"⟩,
       ⟨"", "5", "q1", "", "L", "extract_score", "score"⟩] := rfl
  have hdf : dfrowsAll (evalCollect c1badqs).entries =
      [⟨"all", "L", "m:accuracy", accuracy_score [("1", "1")]⟩,
       ⟨"all", "L", "m:n", ((1 : Nat) : ℚ)⟩,
       ⟨"all", "L", "m:accuracy", accuracy_score [("", "5")]⟩,
       ⟨"all", "L", "m:n", ((1 : Nat) : ℚ)⟩] := rfl
  refine ⟨rfl, ?_, ?_, ?_⟩
  · rw [h1]
    have h2 : ([⟨"1", "1", "q1", "", "L", "is_eq", "binary"⟩,
        (⟨"", "5", "q1", "", "L", "extract_score", "score"⟩ : Row)].countP
        fun r => r.result == r.target) = 1 := rfl
    rw [h2]
    norm_num
  · rw [hdf]
    exact ⟨⟨"all", "L", "m:accuracy", accuracy_score [("1", "1")]⟩,
      List.mem_cons_self _ _, rfl, rfl, rfl⟩
  · rw [hdf]
    intro s hs hsm
    have hacc1 : accuracy_score [("1", "1")] = 1 := by
      rw [accuracy_score]
      norm_num
    have hacc0 : accuracy_score [("", "5")] = 0 := by
      rw [accuracy_score]
      have hc : ([("", "5")].countP fun p => p.1 == p.2) = 0 := rfl
      rw [hc]
      norm_num
    simp only [List.mem_cons, List.not_mem_nil, or_false] at hs
    rcases hs with rfl | rfl | rfl | rfl
    · simp only [hacc1]
      norm_num
    · simp at hsm
    · simp only [hacc0]
      norm_num
    · simp at hsm

/-- C1 (amended): the pipeline computes its statistics per `kind:metric`
dataframe.  For every kind, metric name and LLM that occur among the
collected rows of a run whose collection loop does not crash and whose
report pass completes without raising (the report pass unpacks every stored
key with `kind, metric = key.split(":")`, which raises ValueError as soon
as any metric name contains a colon), the emitted statistics contain, in
the ungrouped pass, an accuracy statistic labelled `metric:accuracy` equal
to the fraction of that kind-and-metric's rows of that LLM whose `result`
equals the registered `target` of the check's function, and a count
statistic `metric:n` equal to the number of those rows; a check contributes
one row per occurrence of a metric name in its `metrics` list (so exactly
one row per listed metric name when the names are distinct).  When one
metric name occurs under two kinds, separate statistics are emitted under
the same label for each kind. -/
theorem c1_amended_per_kind_metric_stats (qs : List QueryRec)
    (kind metric llm : String) (stats : List StatRow)
    (hok : (evalCollect qs).crashed = false)
    (hagg : dfrowsAllE (evalCollect qs).entries = .ok stats)
    (hllm : llm ∈ llmsOf (metricDF (evalCollect qs).entries kind metric)) :
    ((⟨"all", llm, metric ++ ":accuracy",
      (((llmGroup (metricDF (specEntries qs) kind metric) llm).countP
          fun r => r.result == r.target : ℚ)) /
        ((llmGroup (metricDF (specEntries qs) kind metric) llm).length : ℚ)⟩ :
        StatRow) ∈ stats) ∧
    ((⟨"all", llm, metric ++ ":n",
      ((llmGroup (metricDF (specEntries qs) kind metric) llm).length : ℚ)⟩ :
        StatRow) ∈ stats) ∧
    (llmGroup (metricDF (specEntries qs) kind metric) llm).length =
      specCount qs kind metric llm := by
  obtain rfl : stats = dfrowsAll (evalCollect qs).entries :=
    dfrowsAllE_ok (evalCollect qs).entries stats hagg
  have hent : (evalCollect qs).entries = specEntries qs := evalCollect_entries qs hok
  rw [hent] at hllm
  obtain ⟨r, hr, -⟩ := llmsOf_mem hllm
  have hkey : (kind, metric) ∈ keysOf (specEntries qs) := metricDF_key hr
  have hmem := statsForKey_mem (specEntries qs) kind metric llm hllm
  refine ⟨?_, ?_, metricDF_spec_count qs kind metric llm⟩
  · have h1 := dfrowsAll_mem hkey hmem.1
    rw [accuracy_score_eq] at h1
    rw [hent]
    exact h1
  · rw [hent]
    exact dfrowsAll_mem hkey hmem.2

/-- C1 witness: the amended statement evaluated on a one-query input. -/
theorem c1_amended_witness :
    ((⟨"all", "L", "m" ++ ":accuracy",
      (((llmGroup (metricDF (specEntries c1okqs) "binary" "m") "L").countP
          fun r => r.result == r.target : ℚ)) /
        ((llmGroup (metricDF (specEntries c1okqs) "binary" "m") "L").length : ℚ)⟩ :
        StatRow) ∈ dfrowsAll (evalCollect c1okqs).entries) ∧
    ((⟨"all", "L", "m" ++ ":n",
      ((llmGroup (metricDF (specEntries c1okqs) "binary" "m") "L").length : ℚ)⟩ :
        StatRow) ∈ dfrowsAll (evalCollect c1okqs).entries) ∧
    (llmGroup (metricDF (specEntries c1okqs) "binary" "m") "L").length =
      specCount c1okqs "binary" "m" "L" :=
  c1_amended_per_kind_metric_stats c1okqs "binary" "m" "L"
    (dfrowsAll (evalCollect c1okqs).entries) (by decide) rfl (by decide)

/-! ## By-tag grouping -/

theorem the_groupby_func_singleton (tagname : String) (r : Row) :
    the_groupby_func [tagname] r = hasTag tagname r.tags := by
  simp [the_groupby_func, hasTag]

/-- C2: for each metric dataframe of the evaluation, grouping by a tag name
splits the rows into the yes-group and the no-group: a row is selected for
the yes-group exactly when the tag name occurs among the comma-split,
Unicode-whitespace-stripped elements of its `tags` field, and otherwise for
the no-group; whenever the per-tag report pass completes without raising
(its `kind, metric = key.split(":")` unpack raises ValueError if a metric
name contains a colon), every nonempty group is reported under
`tagname:yes` or `tagname:no` with, per LLM, the same accuracy and count
statistics as the ungrouped pass computes, applied to the group's rows. -/
theorem c2_by_tag_grouping (qs : List QueryRec)
    (tagname kind metric llm : String) (yes : Bool) :
    (∀ r : Row, the_groupby_func [tagname] r = hasTag tagname r.tags) ∧
    (∀ r : Row,
      r ∈ tagSel (evalCollect qs).entries kind metric tagname yes ↔
      (r ∈ metricDF (evalCollect qs).entries kind metric ∧
        hasTag tagname r.tags = yes)) ∧
    (∀ stats : List StatRow,
      byTagStatsE (evalCollect qs).entries tagname = .ok stats →
      llmGroup (tagSel (evalCollect qs).entries kind metric tagname yes) llm ≠ [] →
      ((⟨(if yes then tagname ++ ":yes" else tagname ++ ":no"), llm,
        metric ++ ":accuracy",
        accuracy_score (pairsOf (llmGroup
          (tagSel (evalCollect qs).entries kind metric tagname yes) llm))⟩ :
          StatRow) ∈ stats ∧
      (⟨(if yes then tagname ++ ":yes" else tagname ++ ":no"), llm,
        metric ++ ":n",
        ((llmGroup (tagSel (evalCollect qs).entries kind metric tagname yes)
          llm).length : ℚ)⟩ :
          StatRow) ∈ stats)) := by
  refine ⟨the_groupby_func_singleton tagname, ?_, ?_⟩
  · intro r
    simp [tagSel, List.mem_filter]
  · intro stats hstats hne
    obtain rfl : stats = byTagStats (evalCollect qs).entries tagname :=
      byTagStatsE_ok (evalCollect qs).entries tagname stats hstats
    have hsel_eq : tagSel (evalCollect qs).entries kind metric tagname yes =
        groupRows (metricDF (evalCollect qs).entries kind metric) tagname yes := by
      rw [tagSel, groupRows]
      refine List.filter_congr ?_
      intro r _
      rw [the_groupby_func_singleton tagname r]
    obtain ⟨r, hrsel, hrllm⟩ := llmGroup_ne_nil hne
    have hrdf : r ∈ metricDF (evalCollect qs).entries kind metric :=
      (List.mem_filter.mp hrsel).1
    have hkey := metricDF_key hrdf
    have hnonempty :
        (groupRows (metricDF (evalCollect qs).entries kind metric) tagname
          yes).isEmpty = false := by
      rw [← hsel_eq]
      have hne2 : tagSel (evalCollect qs).entries kind metric tagname yes ≠ [] :=
        List.ne_nil_of_mem hrsel
      simpa [List.isEmpty_iff] using hne2
    have hgmem : (yes, groupRows (metricDF (evalCollect qs).entries kind metric)
        tagname yes) ∈
        tagGroupsDF (metricDF (evalCollect qs).entries kind metric) tagname := by
      rw [tagGroupsDF]
      rcases yes with - | -
      · simp [hnonempty]
      · simp [hnonempty]
    have hllmmem : llm ∈ llmsOf (groupRows (metricDF (evalCollect qs).entries
        kind metric) tagname yes) := by
      rw [← hsel_eq, ← hrllm]
      exact mem_llmsOf hrsel
    constructor <;>
    · rw [hsel_eq, byTagStats]
      refine List.mem_flatMap.mpr ⟨(kind, metric), hkey, ?_⟩
      refine List.mem_flatMap.mpr
        ⟨(yes, groupRows (metricDF (evalCollect qs).entries kind metric) tagname yes),
          hgmem, ?_⟩
      refine List.mem_flatMap.mpr ⟨llm, hllmmem, ?_⟩
      simp

end Ragability
